import Mathlib

/-!
# Verification of the metrics precalculation engine (`cache-scheduler.js`)

This file gives a shallow embedding, in Lean 4, of the tenant-scoped metrics
precalculation engine of the repository (file `src/cache-scheduler.js`) and
proves the behavioural claims C1 - C10 about it.

Modelling conventions:

* JavaScript `Date.UTC(...)` / `getUTCFullYear/Month/Date` are modelled with
  the proleptic-Gregorian civil-calendar conversions on day serial numbers
  (days since 1970-01-01), exactly the arithmetic ECMAScript prescribes for
  `MakeDay` (month overflow is folded into the year, day overflow into the
  month).  `Int` division `/` in Lean is Euclidean division, which coincides
  with floor division for the positive literal divisors used here.
* The America/New_York wall-clock-to-epoch conversion performed by
  `toUnixInTimezone` depends on the host timezone database, so it is kept
  abstract: an arbitrary function `toUnix year month0 day h m s` (month is
  0-based, as in the JavaScript call sites).
* Likewise `getNowInTimezone` (an `Intl` lookup) is abstracted by a
  `NowParts` record of the current ET calendar components, and the ET
  calendar date of a stored `generatedAt` instant is an abstract function
  `etDate`.
* The `db.*` query functions (`src/migrate-to-db.js`) sit behind a
  connection pool; each call is modelled as an oracle field of `OrchEnv`.
  The roster/department lookups are wrapped in `catch { return [] }`
  inside `cache-scheduler.js`, so their oracles are total, but
  `getTenantApiKeys` is a bare `pool.query` awaited with no try/catch,
  so its oracle is `Except`-valued: `.error` is a rejected query.
* `fetch` against the Front API is modelled by an oracle of provider
  responses; JavaScript truthiness of the strings and objects involved is
  modelled explicitly (`jsTruthyStr`, `Option`).
-/

/-! ## Civil calendar arithmetic (model of ECMAScript `Date.UTC` etc.) -/

/-- Days of a full era (400 Gregorian years). -/
def eraDays : Int := 146097

/-- Day count contributed by `yoe` whole years at the start of an era
(years counted from March 1; `yoe / 4` leap days minus `yoe / 100`
century corrections). -/
def ydaysOf (yoe : Int) : Int := 365 * yoe + yoe / 4 - yoe / 100

/-- Year-of-era recovered from a day-of-era (Hinnant's formula). -/
def yoeFromDoe (doe : Int) : Int :=
  (doe - doe / 1460 + doe / 36524 - doe / 146096) / 365

/-- Shifted year used by the civil conversion: January and February count
into the previous year (so that leap days land at the end of the year). -/
def yShifted (y m : Int) : Int := if m ≤ 2 then y - 1 else y

/-- Serial day number (days since 1970-01-01) of the civil date
`(y, m, d)`, month 1-based, proleptic Gregorian. -/
def daysFromCivil (y m d : Int) : Int :=
  (yShifted y m / 400) * 146097 + ydaysOf (yShifted y m % 400)
    + (153 * ((m + 9) % 12) + 2) / 5 + d - 1 - 719468

/-- Era index of a serial day number. -/
def eraOf (z : Int) : Int := (z + 719468) / 146097

/-- Day-of-era of a serial day number. -/
def doeOf (z : Int) : Int := (z + 719468) % 146097

/-- Year-of-era of a serial day number. -/
def yoeOf (z : Int) : Int := yoeFromDoe (doeOf z)

/-- Day-of-year (March-based) of a serial day number. -/
def doyOf (z : Int) : Int := doeOf z - ydaysOf (yoeOf z)

/-- March-based month index (March = 0) of a serial day number. -/
def mpOf (z : Int) : Int := (5 * doyOf z + 2) / 153

/-- Civil day of month (1-based) of a serial day number
(the JavaScript `getUTCDate`). -/
def dayOf (z : Int) : Int := doyOf z - (153 * mpOf z + 2) / 5 + 1

/-- Civil month (1-based; the JavaScript `getUTCMonth` is this minus one)
of a serial day number. -/
def monthOf (z : Int) : Int := if mpOf z < 10 then mpOf z + 3 else mpOf z - 9

/-- Civil year of a serial day number (the JavaScript `getUTCFullYear`). -/
def yearOf (z : Int) : Int :=
  (yoeOf z + eraOf z * 400) + (if monthOf z ≤ 2 then 1 else 0)

/-- Model of `new Date(Date.UTC(y, m0, d))` as a serial day number:
the month (0-based, arbitrary integer) overflows into the year and the
day (arbitrary integer) overflows into the month, exactly as in
ECMAScript's `MakeDay`. -/
def jsDateUTC (y m0 d : Int) : Int :=
  daysFromCivil (y + m0 / 12) (m0 % 12 + 1) 1 + d - 1

/-- Day of week (0 = Sunday .. 6 = Saturday) of a serial day number;
1970-01-01 was a Thursday. -/
def weekdayOf (z : Int) : Int := (z + 4) % 7

set_option maxHeartbeats 8000000 in
/-- Hinnant's year-of-era formula is correct on each year interval of an
era: if `doe` lies in the day range of year `k` of the era then the
formula recovers `k`.  (For `k = 399`, the last year of the era, the
interval extends to the era's final day `146096`.) -/
theorem yoeFromDoe_eq (k doe : Int) (hk0 : 0 ≤ k) (hk1 : k ≤ 399)
    (h1 : ydaysOf k ≤ doe)
    (h2 : doe < ydaysOf (k + 1) ∨ (k = 399 ∧ doe ≤ 146096)) :
    yoeFromDoe doe = k := by
  unfold ydaysOf at h1 h2
  unfold yoeFromDoe
  interval_cases k <;> omega

/-- Every day-of-era lies in the day range of some year of the era. -/
theorem doe_year_cover_aux (n : Nat) :
    ∀ doe : Int, 0 ≤ doe → doe < ydaysOf (n : Int) →
      ∃ k : Int, 0 ≤ k ∧ k + 1 ≤ (n : Int) ∧ ydaysOf k ≤ doe ∧
        doe < ydaysOf (k + 1) := by
  induction n with
  | zero =>
    intro doe h0 h1
    unfold ydaysOf at h1
    omega
  | succ m ih =>
    intro doe h0 h1
    by_cases hc : doe < ydaysOf (m : Int)
    · obtain ⟨k, hk⟩ := ih doe h0 hc
      exact ⟨k, hk.1, by push_cast; omega, hk.2.2⟩
    · refine ⟨(m : Int), by omega, by push_cast; omega, by omega, ?_⟩
      unfold ydaysOf at h1 ⊢
      push_cast at h1 ⊢
      omega

/-- Bounds for the year-of-era and day-of-year extracted from a
day-of-era: the year index is in `[0, 399]` and the residual day-of-year
is in `[0, 365]`. -/
theorem yoeFromDoe_bounds (doe : Int) (h0 : 0 ≤ doe) (h1 : doe ≤ 146096) :
    0 ≤ yoeFromDoe doe ∧ yoeFromDoe doe ≤ 399 ∧
      ydaysOf (yoeFromDoe doe) ≤ doe ∧ doe - ydaysOf (yoeFromDoe doe) ≤ 365 := by
  by_cases hend : doe < ydaysOf 400
  · obtain ⟨k, hk0, hk1, hk2, hk3⟩ := doe_year_cover_aux 400 doe h0 (by exact_mod_cast hend)
    have hkk : k ≤ 399 := by omega
    have heq := yoeFromDoe_eq k doe hk0 hkk hk2 (Or.inl hk3)
    have hw : ydaysOf (k + 1) - ydaysOf k ≤ 366 := by unfold ydaysOf; omega
    rw [heq]
    omega
  · have hdoe : doe = 146096 := by unfold ydaysOf at hend; omega
    have heq := yoeFromDoe_eq 399 doe (by omega) (by omega)
      (by unfold ydaysOf; omega) (Or.inr ⟨rfl, by omega⟩)
    rw [heq]
    unfold ydaysOf
    omega

/-- Month extraction from a (March-based) day-of-year: the shifted month
index is in `[0, 11]` and brackets the day-of-year. -/
theorem mp_bounds (doy : Int) (h0 : 0 ≤ doy) (h1 : doy ≤ 365) :
    0 ≤ (5 * doy + 2) / 153 ∧ (5 * doy + 2) / 153 ≤ 11 ∧
      (153 * ((5 * doy + 2) / 153) + 2) / 5 ≤ doy ∧
      doy < (153 * ((5 * doy + 2) / 153 + 1) + 2) / 5 := by
  omega

/-- The civil components extracted from any serial day number `z`
reassemble to `z`: `daysFromCivil` is a left inverse of the
`yearOf`/`monthOf`/`dayOf` extraction. -/
theorem daysFromCivil_of_serial (z : Int) :
    daysFromCivil (yearOf z) (monthOf z) (dayOf z) = z := by
  have hera : z + 719468 = 146097 * eraOf z + doeOf z ∧ 0 ≤ doeOf z ∧ doeOf z < 146097 := by
    unfold eraOf doeOf
    omega
  have hyoe := yoeFromDoe_bounds (doeOf z) hera.2.1 (by omega)
  rw [show yoeFromDoe (doeOf z) = yoeOf z from rfl] at hyoe
  have hdoy : doyOf z = doeOf z - ydaysOf (yoeOf z) := rfl
  have hmp := mp_bounds (doyOf z) (by omega) (by omega)
  rw [show (5 * doyOf z + 2) / 153 = mpOf z from rfl] at hmp
  have hyd : ydaysOf (yoeOf z) = 365 * yoeOf z + yoeOf z / 4 - yoeOf z / 100 := rfl
  have hday : dayOf z = doyOf z - (153 * mpOf z + 2) / 5 + 1 := rfl
  by_cases hs : mpOf z < 10
  · have hm : monthOf z = mpOf z + 3 := by unfold monthOf; simp [hs]
    have hy : yearOf z = yoeOf z + eraOf z * 400 := by
      unfold yearOf
      rw [hm]
      have h2 : ¬(mpOf z + 3 ≤ 2) := by omega
      simp [h2]
    rw [hm, hy]
    unfold daysFromCivil yShifted ydaysOf
    have h2 : ¬(mpOf z + 3 ≤ 2) := by omega
    simp only [if_neg h2]
    have e1 : (yoeOf z + eraOf z * 400) / 400 = eraOf z := by omega
    have e2 : (yoeOf z + eraOf z * 400) % 400 = yoeOf z := by omega
    have e3 : (mpOf z + 3 + 9) % 12 = mpOf z := by omega
    rw [e1, e2, e3]
    omega
  · have hm : monthOf z = mpOf z - 9 := by unfold monthOf; simp [hs]
    have hmle : monthOf z ≤ 2 := by rw [hm]; omega
    have hy : yearOf z = yoeOf z + eraOf z * 400 + 1 := by
      unfold yearOf
      simp [hmle]
    rw [hm, hy]
    unfold daysFromCivil yShifted ydaysOf
    have h2 : mpOf z - 9 ≤ 2 := by omega
    simp only [if_pos h2]
    have e0 : yoeOf z + eraOf z * 400 + 1 - 1 = yoeOf z + eraOf z * 400 := by ring
    rw [e0]
    have e1 : (yoeOf z + eraOf z * 400) / 400 = eraOf z := by omega
    have e2 : (yoeOf z + eraOf z * 400) % 400 = yoeOf z := by omega
    have e3 : (mpOf z - 9 + 9) % 12 = mpOf z := by omega
    rw [e1, e2, e3]
    omega

/-- The extracted civil month is a real month and the extracted day a
real day of month. -/
theorem serial_components_valid (z : Int) :
    1 ≤ monthOf z ∧ monthOf z ≤ 12 ∧ 1 ≤ dayOf z ∧ dayOf z ≤ 31 := by
  have hera : 0 ≤ doeOf z ∧ doeOf z < 146097 := by
    unfold doeOf
    omega
  have hyoe := yoeFromDoe_bounds (doeOf z) hera.1 (by omega)
  rw [show yoeFromDoe (doeOf z) = yoeOf z from rfl] at hyoe
  have hdoy : doyOf z = doeOf z - ydaysOf (yoeOf z) := rfl
  have hmp := mp_bounds (doyOf z) (by omega) (by omega)
  rw [show (5 * doyOf z + 2) / 153 = mpOf z from rfl] at hmp
  unfold monthOf dayOf
  split_ifs <;> omega

set_option maxHeartbeats 1000000 in
/-- Inverse direction of the month formula: the March-based month index
is recovered from any day-of-year inside that month's bracket. -/
theorem mpFromDoy_inv (mp doy : Int) (h0 : 0 ≤ mp) (h1 : mp ≤ 11)
    (h2 : (153 * mp + 2) / 5 ≤ doy) (h3 : doy < (153 * (mp + 1) + 2) / 5) :
    (5 * doy + 2) / 153 = mp := by
  interval_cases mp <;> omega

/-- `daysFromCivil` is linear in the day argument. -/
theorem daysFromCivil_day (y m d : Int) :
    daysFromCivil y m d = daysFromCivil y m 1 + d - 1 := by
  unfold daysFromCivil
  ring

/-- Round trip from a civil date in the March-December part of the year
(these months never interact with leap days): the serial produced by
`daysFromCivil` decodes back to the same components, provided the day
lies inside the month (`hd2`). -/
theorem components_of_daysFromCivil (y m d : Int) (hm1 : 3 ≤ m) (hm2 : m ≤ 12)
    (hd1 : 1 ≤ d)
    (hd2 : (153 * (m - 3) + 2) / 5 + d - 1 < (153 * (m - 2) + 2) / 5) :
    yearOf (daysFromCivil y m d) = y ∧ monthOf (daysFromCivil y m d) = m ∧
      dayOf (daysFromCivil y m d) = d := by
  have hmp0 : (m + 9) % 12 = m - 3 := by omega
  have hys : yShifted y m = y := by unfold yShifted; split_ifs <;> omega
  have hw : daysFromCivil y m d =
      (y / 400) * 146097 + ydaysOf (y % 400) + ((153 * (m - 3) + 2) / 5 + d - 1) - 719468 := by
    unfold daysFromCivil
    rw [hys, hmp0]
    ring
  have hdoyb : 0 ≤ (153 * (m - 3) + 2) / 5 + d - 1 ∧ (153 * (m - 3) + 2) / 5 + d - 1 ≤ 305 := by
    omega
  have hydb : 0 ≤ ydaysOf (y % 400) ∧ ydaysOf (y % 400) ≤ 145731 := by
    unfold ydaysOf
    omega
  have hera : eraOf (daysFromCivil y m d) = y / 400 := by
    unfold eraOf
    rw [hw]
    omega
  have hdoe : doeOf (daysFromCivil y m d) = ydaysOf (y % 400) + ((153 * (m - 3) + 2) / 5 + d - 1) := by
    unfold doeOf
    rw [hw]
    unfold ydaysOf at hydb ⊢
    omega
  have hyoe : yoeOf (daysFromCivil y m d) = y % 400 := by
    unfold yoeOf
    rw [hdoe]
    refine yoeFromDoe_eq (y % 400) _ (by omega) (by omega) (by omega) (Or.inl ?_)
    unfold ydaysOf at hydb ⊢
    omega
  have hdoy : doyOf (daysFromCivil y m d) = (153 * (m - 3) + 2) / 5 + d - 1 := by
    unfold doyOf
    rw [hdoe, hyoe]
    ring
  have hmp : mpOf (daysFromCivil y m d) = m - 3 := by
    unfold mpOf
    rw [hdoy]
    exact mpFromDoy_inv (m - 3) _ (by omega) (by omega) (by omega) (by omega)
  have hmonth : monthOf (daysFromCivil y m d) = m := by
    unfold monthOf
    rw [hmp]
    have : m - 3 < 10 := by omega
    simp only [if_pos this]
    ring
  refine ⟨?_, hmonth, ?_⟩
  · unfold yearOf
    rw [hmonth, hyoe, hera]
    have : ¬(m ≤ 2) := by omega
    simp only [if_neg this]
    omega
  · unfold dayOf
    rw [hdoy, hmp]
    ring

/-- `Date.UTC` with a month already in `0..11` is plain `daysFromCivil`. -/
theorem jsDateUTC_eq (y m0 d : Int) (h0 : 0 ≤ m0) (h1 : m0 ≤ 11) :
    jsDateUTC y m0 d = daysFromCivil y (m0 + 1) d := by
  unfold jsDateUTC
  have e1 : m0 / 12 = 0 := by omega
  have e2 : m0 % 12 = m0 := by omega
  rw [e1, e2]
  unfold daysFromCivil
  ring

/-- Re-encoding the components of a serial `z` with an arbitrary day
offset lands at the corresponding offset from `z` (how the source hops
around from a `Date` object via `Date.UTC`). -/
theorem jsDateUTC_of_serial (z d' : Int) :
    jsDateUTC (yearOf z) (monthOf z - 1) d' = z + d' - dayOf z := by
  have hv := serial_components_valid z
  have h := jsDateUTC_eq (yearOf z) (monthOf z - 1) d' (by omega) (by omega)
  rw [h]
  have e : monthOf z - 1 + 1 = monthOf z := by ring
  rw [e, daysFromCivil_day]
  have h2 := daysFromCivil_day (yearOf z) (monthOf z) (dayOf z)
  have h3 := daysFromCivil_of_serial z
  omega

/-! ## `getDateRange` (RangeResolver) -/

/-- The current calendar components in America/New_York, as read by
`getNowInTimezone` through `Intl.DateTimeFormat` (month is 0-based as in
the source; `dayOfWeek` is the index in Sun..Sat that the `lastWeek`
branch recomputes with the same `Intl` weekday lookup). -/
structure NowParts where
  year : Int
  month : Int
  day : Int
  dayOfWeek : Int
deriving DecidableEq

/-- The signature of the abstracted `toUnixInTimezone`: year, month
(0-based), day, hours, minutes, seconds in America/New_York to epoch
seconds. -/
abbrev TzToUnix := Int → Int → Int → Int → Int → Int → Int

/-- The record returned by `getDateRange`.  (`stop` is the source's `end`
field, renamed because `end` is a Lean keyword.) -/
structure RangeSpec where
  start : Int
  stop : Int
  label : String
deriving DecidableEq

/-- Model of `getDateRange(rangeName)`.  `Date` objects are serial day
numbers; component reads (`getUTCFullYear` / `getUTCMonth` /
`getUTCDate`) are `yearOf` / `monthOf - 1` / `dayOf`.  The unknown-range
`throw` is an `Except.error`. -/
def getDateRange (now : NowParts) (toUnix : TzToUnix) (rangeName : String) :
    Except String RangeSpec :=
  if rangeName = "lastWeek" then
    let satEnd := jsDateUTC now.year now.month (now.day - now.dayOfWeek - 1)
    let sunStart := jsDateUTC (yearOf satEnd) (monthOf satEnd - 1) (dayOf satEnd - 6)
    .ok { start := toUnix (yearOf sunStart) (monthOf sunStart - 1) (dayOf sunStart) 0 0 0,
          stop := toUnix (yearOf satEnd) (monthOf satEnd - 1) (dayOf satEnd) 23 59 59,
          label := "Last Week" }
  else if rangeName = "lastMonth" then
    let lastMonthDate := jsDateUTC now.year (now.month - 1) 1
    let lastDayOfLastMonth := jsDateUTC now.year now.month 0
    .ok { start := toUnix (yearOf lastMonthDate) (monthOf lastMonthDate - 1) 1 0 0 0,
          stop := toUnix (yearOf lastDayOfLastMonth) (monthOf lastDayOfLastMonth - 1)
                    (dayOf lastDayOfLastMonth) 23 59 59,
          label := "Last Month" }
  else if rangeName = "lastQuarter" then
    let currentQuarter := now.month / 3
    let qStartYear := if currentQuarter = 0 then now.year - 1 else now.year
    let qEndYear := if currentQuarter = 0 then now.year - 1 else now.year
    let qStartMonth := if currentQuarter = 0 then 9 else (currentQuarter - 1) * 3
    let qEndMonth := if currentQuarter = 0 then 11 else (currentQuarter - 1) * 3 + 2
    let lastDayOfQuarter := jsDateUTC qEndYear (qEndMonth + 1) 0
    .ok { start := toUnix qStartYear qStartMonth 1 0 0 0,
          stop := toUnix (yearOf lastDayOfQuarter) (monthOf lastDayOfQuarter - 1)
                    (dayOf lastDayOfQuarter) 23 59 59,
          label := "Last Quarter" }
  else .error ("Unknown range: " ++ rangeName)

/-- `Date.UTC(y, 12, 0)` (day 0 of month 12, 0-based) is December 31 of
year `y`. -/
theorem jsDateUTC_dec31 (y : Int) :
    yearOf (jsDateUTC y 12 0) = y ∧ monthOf (jsDateUTC y 12 0) = 12 ∧
      dayOf (jsDateUTC y 12 0) = 31 := by
  have e : jsDateUTC y 12 0 = daysFromCivil y 12 31 := by
    unfold jsDateUTC daysFromCivil yShifted ydaysOf
    split_ifs <;> omega
  rw [e]
  exact components_of_daysFromCivil y 12 31 (by omega) (by omega) (by omega) (by decide)

/-- `Date.UTC(y, 3, 0)` is March 31 of year `y`. -/
theorem jsDateUTC_mar31 (y : Int) :
    yearOf (jsDateUTC y 3 0) = y ∧ monthOf (jsDateUTC y 3 0) = 3 ∧
      dayOf (jsDateUTC y 3 0) = 31 := by
  have e : jsDateUTC y 3 0 = daysFromCivil y 3 31 := by
    unfold jsDateUTC daysFromCivil yShifted ydaysOf
    split_ifs <;> omega
  rw [e]
  exact components_of_daysFromCivil y 3 31 (by omega) (by omega) (by omega) (by decide)

/-- `Date.UTC(y, 6, 0)` is June 30 of year `y`. -/
theorem jsDateUTC_jun30 (y : Int) :
    yearOf (jsDateUTC y 6 0) = y ∧ monthOf (jsDateUTC y 6 0) = 6 ∧
      dayOf (jsDateUTC y 6 0) = 30 := by
  have e : jsDateUTC y 6 0 = daysFromCivil y 6 30 := by
    unfold jsDateUTC daysFromCivil yShifted ydaysOf
    split_ifs <;> omega
  rw [e]
  exact components_of_daysFromCivil y 6 30 (by omega) (by omega) (by omega) (by decide)

/-- `Date.UTC(y, 9, 0)` is September 30 of year `y`. -/
theorem jsDateUTC_sep30 (y : Int) :
    yearOf (jsDateUTC y 9 0) = y ∧ monthOf (jsDateUTC y 9 0) = 9 ∧
      dayOf (jsDateUTC y 9 0) = 30 := by
  have e : jsDateUTC y 9 0 = daysFromCivil y 9 30 := by
    unfold jsDateUTC daysFromCivil yShifted ydaysOf
    split_ifs <;> omega
  rw [e]
  exact components_of_daysFromCivil y 9 30 (by omega) (by omega) (by omega) (by decide)

/-- C5. For a "now" whose business-timezone month lies in the first
calendar quarter (January-March, 0-based months 0-2) of year `Y`,
`getDateRange "lastQuarter"` resolves to October 1 of `Y-1` at 00:00:00
through December 31 of `Y-1` at 23:59:59 (as business-timezone
wall-clock components handed to the epoch conversion); for a "now" in
any later quarter it resolves to the immediately preceding 3-month
quarter of the same year (month arguments are 0-based). -/
theorem lastQuarter_resolution (now : NowParts) (toUnix : TzToUnix)
    (hm0 : 0 ≤ now.month) (hm1 : now.month ≤ 11) :
    (now.month ≤ 2 →
      getDateRange now toUnix "lastQuarter" =
        .ok { start := toUnix (now.year - 1) 9 1 0 0 0,
              stop := toUnix (now.year - 1) 11 31 23 59 59,
              label := "Last Quarter" }) ∧
    (3 ≤ now.month →
      getDateRange now toUnix "lastQuarter" =
        .ok { start := toUnix now.year ((now.month / 3 - 1) * 3) 1 0 0 0,
              stop := toUnix now.year (now.month / 3 * 3 - 1)
                        (if now.month / 3 = 1 then 31 else 30) 23 59 59,
              label := "Last Quarter" }) := by
  obtain ⟨Y, M, D, W⟩ := now
  dsimp only at hm0 hm1 ⊢
  constructor
  · intro hq
    have hq3 : M / 3 = 0 := by omega
    unfold getDateRange
    rw [if_neg (by decide), if_neg (by decide), if_pos rfl]
    dsimp only
    rw [hq3]
    norm_num
    rw [(jsDateUTC_dec31 (Y - 1)).1, (jsDateUTC_dec31 (Y - 1)).2.1, (jsDateUTC_dec31 (Y - 1)).2.2]
    norm_num
  · intro hq
    unfold getDateRange
    rw [if_neg (by decide), if_neg (by decide), if_pos rfl]
    dsimp only
    interval_cases M <;>
      norm_num <;>
      first
        | (rw [(jsDateUTC_mar31 Y).1, (jsDateUTC_mar31 Y).2.1, (jsDateUTC_mar31 Y).2.2]; norm_num)
        | (rw [(jsDateUTC_jun30 Y).1, (jsDateUTC_jun30 Y).2.1, (jsDateUTC_jun30 Y).2.2]; norm_num)
        | (rw [(jsDateUTC_sep30 Y).1, (jsDateUTC_sep30 Y).2.1, (jsDateUTC_sep30 Y).2.2]; norm_num)

/-- C6. For every "now" (valid ET calendar components whose `dayOfWeek`
is the true day of week of that date), `getDateRange "lastWeek"`
resolves to the most recently completed Sunday-through-Saturday week:
the end day `S` is a Saturday strictly before today and at most 7 days
back, the start day is `S - 6` and is a Sunday, and the produced range
runs from that Sunday at 00:00:00 to that Saturday at 23:59:59 (month
arguments to the epoch conversion are 0-based). -/
theorem lastWeek_resolution (now : NowParts) (toUnix : TzToUnix)
    (hm0 : 0 ≤ now.month) (hm1 : now.month ≤ 11)
    (hdow : now.dayOfWeek = weekdayOf (daysFromCivil now.year (now.month + 1) now.day)) :
    ∃ spec,
      getDateRange now toUnix "lastWeek" = .ok spec ∧
      weekdayOf (daysFromCivil now.year (now.month + 1) now.day - now.dayOfWeek - 1) = 6 ∧
      daysFromCivil now.year (now.month + 1) now.day - now.dayOfWeek - 1 <
        daysFromCivil now.year (now.month + 1) now.day ∧
      daysFromCivil now.year (now.month + 1) now.day -
        (daysFromCivil now.year (now.month + 1) now.day - now.dayOfWeek - 1) ≤ 7 ∧
      weekdayOf (daysFromCivil now.year (now.month + 1) now.day - now.dayOfWeek - 7) = 0 ∧
      spec.stop =
        toUnix (yearOf (daysFromCivil now.year (now.month + 1) now.day - now.dayOfWeek - 1))
          (monthOf (daysFromCivil now.year (now.month + 1) now.day - now.dayOfWeek - 1) - 1)
          (dayOf (daysFromCivil now.year (now.month + 1) now.day - now.dayOfWeek - 1)) 23 59 59 ∧
      spec.start =
        toUnix (yearOf (daysFromCivil now.year (now.month + 1) now.day - now.dayOfWeek - 7))
          (monthOf (daysFromCivil now.year (now.month + 1) now.day - now.dayOfWeek - 7) - 1)
          (dayOf (daysFromCivil now.year (now.month + 1) now.day - now.dayOfWeek - 7)) 0 0 0 ∧
      spec.label = "Last Week" := by
  obtain ⟨Y, M, D, W⟩ := now
  dsimp only at hm0 hm1 hdow ⊢
  have hsat : jsDateUTC Y M (D - W - 1) = daysFromCivil Y (M + 1) D - W - 1 := by
    rw [jsDateUTC_eq Y M (D - W - 1) hm0 hm1, daysFromCivil_day,
      daysFromCivil_day Y (M + 1) D]
    ring
  have hsun : jsDateUTC (yearOf (daysFromCivil Y (M + 1) D - W - 1))
      (monthOf (daysFromCivil Y (M + 1) D - W - 1) - 1)
      (dayOf (daysFromCivil Y (M + 1) D - W - 1) - 6) =
      daysFromCivil Y (M + 1) D - W - 7 := by
    rw [jsDateUTC_of_serial]
    ring
  have hwbound : 0 ≤ W ∧ W ≤ 6 := by
    unfold weekdayOf at hdow
    omega
  refine ⟨_, rfl, ?_, by omega, by omega, ?_, ?_, ?_, rfl⟩
  · unfold weekdayOf at hdow ⊢
    omega
  · unfold weekdayOf at hdow ⊢
    omega
  · dsimp only
    rw [hsat]
  · dsimp only
    rw [hsat, hsun]

/-- A concrete injective stand-in for the abstract wall-clock-to-epoch
conversion, used by witnesses. -/
def tzStub : TzToUnix :=
  fun y m d hh mi s => ((((y * 12 + m) * 31 + d) * 24 + hh) * 60 + mi) * 60 + s

/-- Witness for C5: evaluated in February 2026 (ET month index 1),
`lastQuarter` resolves to Oct 1, 2025 00:00:00 .. Dec 31, 2025 23:59:59. -/
theorem lastQuarter_resolution_witness :
    getDateRange ⟨2026, 1, 15, 4⟩ tzStub "lastQuarter" =
      .ok { start := tzStub 2025 9 1 0 0 0,
            stop := tzStub 2025 11 31 23 59 59,
            label := "Last Quarter" } :=
  (lastQuarter_resolution ⟨2026, 1, 15, 4⟩ tzStub (by decide) (by decide)).1 (by decide)

/-- Witness for C6: evaluated on Thursday 1970-01-08, `lastWeek` resolves
to Sunday 1969-12-28 00:00:00 .. Saturday 1970-01-03 23:59:59 (serial
day of 1970-01-08 is 7, so the Saturday is serial 2 and the Sunday
serial -4). -/
theorem lastWeek_resolution_witness :
    ∃ spec,
      getDateRange ⟨1970, 0, 8, 4⟩ tzStub "lastWeek" = .ok spec ∧
      weekdayOf (daysFromCivil 1970 (0 + 1) 8 - 4 - 1) = 6 ∧
      daysFromCivil 1970 (0 + 1) 8 - 4 - 1 < daysFromCivil 1970 (0 + 1) 8 ∧
      daysFromCivil 1970 (0 + 1) 8 - (daysFromCivil 1970 (0 + 1) 8 - 4 - 1) ≤ 7 ∧
      weekdayOf (daysFromCivil 1970 (0 + 1) 8 - 4 - 7) = 0 ∧
      spec.stop =
        tzStub (yearOf (daysFromCivil 1970 (0 + 1) 8 - 4 - 1))
          (monthOf (daysFromCivil 1970 (0 + 1) 8 - 4 - 1) - 1)
          (dayOf (daysFromCivil 1970 (0 + 1) 8 - 4 - 1)) 23 59 59 ∧
      spec.start =
        tzStub (yearOf (daysFromCivil 1970 (0 + 1) 8 - 4 - 7))
          (monthOf (daysFromCivil 1970 (0 + 1) 8 - 4 - 7) - 1)
          (dayOf (daysFromCivil 1970 (0 + 1) 8 - 4 - 7)) 0 0 0 ∧
      spec.label = "Last Week" :=
  lastWeek_resolution ⟨1970, 0, 8, 4⟩ tzStub (by decide) (by decide) (by decide)

/-! ## Data model of the cache (`CacheEntry`, `ResultRecord`) -/

/-- One trackable person (a row from the `users` table): external
identifier, display name and channel/inbox code. -/
structure SubjectRecord where
  id : String
  name : String
  code : String
deriving DecidableEq

/-- The JSON body stored from a completed provider response: its
`status` field and (when present) the `metrics` array.  The entries of
`metrics` are irrelevant to every claim, so they are kept opaque as
integers. -/
structure ApiData where
  status : String
  metrics : Option (List Int)
deriving DecidableEq

/-- One element of `apiResponses`: the spread of
`{ recordIndex, record: user, ...result }` where `result` is either
`{ apiData }` or `{ error }`.  Absent JavaScript fields are `none`. -/
structure ResultRecord where
  recordIndex : Nat
  record : Option SubjectRecord
  apiData : Option ApiData
  error : Option String
deriving DecidableEq

/-- A cached document, as written by `precalculateDepartment` /
`precalculateIndividuals`.  `generatedAt` (an ISO string in the source)
is modelled as an abstract instant (`Nat`); its ET calendar date is
recovered by the abstract `etDate` conversion. -/
structure CacheEntry where
  department : String
  range : String
  rangeLabel : String
  timestampStart : Int
  timestampEnd : Int
  generatedAt : Nat
  totalRecords : Nat
  apiResponses : List ResultRecord
deriving DecidableEq

/-- JavaScript truthiness of an optional string: `undefined` and `""`
are falsy. -/
def jsTruthyStr (o : Option String) : Bool :=
  match o with
  | none => false
  | some s => !(s == "")

/-- The per-record test inside `hasCacheErrors`:
`response.error || !response.apiData || !response.apiData.metrics`
(a present `metrics` array is truthy even when empty). -/
def responseHasError (r : ResultRecord) : Bool :=
  jsTruthyStr r.error ||
    (match r.apiData with
     | none => true
     | some a => a.metrics.isNone)

/-- `hasCacheErrors(cachedData)`: truthy for a missing document, else
whether any response records an error. -/
def hasCacheErrors : Option CacheEntry → Bool
  | none => true
  | some c => c.apiResponses.any responseHasError

/-- `String(n).padStart(2, '0')` for the strings produced here (all
nonempty). -/
def pad2 (s : String) : String := if s.length < 2 then "0" ++ s else s

/-- The `YYYY-MM-DD` key both sides of the staleness comparison are
formatted to (month here is already 1-based, as in both source call
sites). -/
def dateKeyStr (y m d : Int) : String :=
  toString y ++ "-" ++ pad2 (toString m) ++ "-" ++ pad2 (toString d)

/-- Model of `needsUpdate(rangeName, cachedData)`.  `etDate` recovers
the `(year, month 1-based, day)` ET components of a stored
`generatedAt` instant, standing for the `Intl.DateTimeFormat`
`formatToParts` computation of the source. -/
def needsUpdate (now : NowParts) (etDate : Nat → Int × Int × Int)
    (rangeName : String) (cached : Option CacheEntry) : Bool :=
  match cached with
  | none => true
  | some c =>
    if hasCacheErrors (some c) then true
    else
      let todayStr := dateKeyStr now.year (now.month + 1) now.day
      let g := etDate c.generatedAt
      let genStr := dateKeyStr g.1 g.2.1 g.2.2
      !(genStr == todayStr)

/-- The per-(subject, range) decision made by `runPrecalculation`
(lines 498-509 of the source): `none` = skip and keep the entry;
`some prior` = regenerate, handing `prior` to the regenerator
(`prior = some c` is the partial-repair merge,
`prior = none` a full recomputation).
Mirrors `if (!forceAll && !needsUpdate(...)) continue;` followed by
`const isRetry = cached && hasCacheErrors(cached);` and
`precalculateDepartment(..., isRetry ? cached : null)`. -/
def schedulerDecision (now : NowParts) (etDate : Nat → Int × Int × Int)
    (forceAll : Bool) (rangeName : String) (cached : Option CacheEntry) :
    Option (Option CacheEntry) :=
  if !forceAll && !needsUpdate now etDate rangeName cached then none
  else some (if cached.isSome && hasCacheErrors cached then cached else none)

/-- C1. The staleness policy of the orchestrator decides "needs
regeneration" exactly for: an absent entry, an entry containing at
least one error `ResultRecord`, or an entry whose generation timestamp
formats to an ET calendar date different from today's; otherwise it
skips.  Moreover the existing entry is handed to the regenerator
(partial repair) only in the error case; in the absent and stale-date
cases the recomputation starts from no prior entry. -/
theorem staleness_policy (now : NowParts) (etDate : Nat → Int × Int × Int)
    (rangeName : String) (cached : Option CacheEntry) :
    (cached = none →
      schedulerDecision now etDate false rangeName cached = some none) ∧
    (∀ c, cached = some c → (∃ r ∈ c.apiResponses, responseHasError r = true) →
      schedulerDecision now etDate false rangeName cached = some (some c)) ∧
    (∀ c, cached = some c → (¬ ∃ r ∈ c.apiResponses, responseHasError r = true) →
      dateKeyStr (etDate c.generatedAt).1 (etDate c.generatedAt).2.1 (etDate c.generatedAt).2.2 ≠
        dateKeyStr now.year (now.month + 1) now.day →
      schedulerDecision now etDate false rangeName cached = some none) ∧
    (∀ c, cached = some c → (¬ ∃ r ∈ c.apiResponses, responseHasError r = true) →
      dateKeyStr (etDate c.generatedAt).1 (etDate c.generatedAt).2.1 (etDate c.generatedAt).2.2 =
        dateKeyStr now.year (now.month + 1) now.day →
      schedulerDecision now etDate false rangeName cached = none) := by
  refine ⟨?_, ?_, ?_, ?_⟩
  · rintro rfl
    rfl
  · rintro c rfl herr
    have hc : hasCacheErrors (some c) = true := by
      unfold hasCacheErrors
      rw [List.any_eq_true]
      obtain ⟨r, hr, he⟩ := herr
      exact ⟨r, hr, he⟩
    unfold schedulerDecision needsUpdate
    rw [hc]
    simp [hc]
  · rintro c rfl herr hne
    have hc : hasCacheErrors (some c) = false := by
      unfold hasCacheErrors
      rw [Bool.eq_false_iff]
      intro habs
      rw [List.any_eq_true] at habs
      exact herr habs
    unfold schedulerDecision needsUpdate
    rw [hc]
    have hbe : (dateKeyStr (etDate c.generatedAt).1 (etDate c.generatedAt).2.1
        (etDate c.generatedAt).2.2 == dateKeyStr now.year (now.month + 1) now.day) = false := by
      rw [beq_eq_false_iff_ne]
      exact hne
    simp [hc, hbe]
  · rintro c rfl herr heq
    have hc : hasCacheErrors (some c) = false := by
      unfold hasCacheErrors
      rw [Bool.eq_false_iff]
      intro habs
      rw [List.any_eq_true] at habs
      exact herr habs
    unfold schedulerDecision needsUpdate
    rw [hc]
    have hbe : (dateKeyStr (etDate c.generatedAt).1 (etDate c.generatedAt).2.1
        (etDate c.generatedAt).2.2 == dateKeyStr now.year (now.month + 1) now.day) = true := by
      rw [beq_iff_eq]
      exact heq
    simp [hc, hbe]

/-- A cached document holding one error record, used by witnesses. -/
def sampleErrEntry : CacheEntry :=
  { department := "Billing", range := "lastWeek", rangeLabel := "Last Week",
    timestampStart := 0, timestampEnd := 0, generatedAt := 0, totalRecords := 1,
    apiResponses := [⟨1, some ⟨"u1", "Ann", "c1"⟩, none, some "API error: 500"⟩] }

/-- Witness for C1: an entry with an error record is regenerated and the
existing entry is handed to the regenerator (partial repair). -/
theorem staleness_policy_witness :
    schedulerDecision ⟨2024, 4, 15, 3⟩ (fun _ => (2024, 5, 15)) false "lastWeek"
      (some sampleErrEntry) = some (some sampleErrEntry) :=
  (staleness_policy ⟨2024, 4, 15, 3⟩ (fun _ => (2024, 5, 15)) "lastWeek"
      (some sampleErrEntry)).2.1 sampleErrEntry rfl (by decide)

/-! ## MetricsClient: `callFrontApi` -/

/-- One observable provider reaction to an HTTP attempt, as seen through
the `fetch`/`response.json()` boundary:

* `rateLimited payload` - status 429 with `_error.message` equal to
  `payload` (`none` when the optional chain
  `errorData._error?.message?` is undefined);
* `httpError status` - a non-2xx, non-429 status;
* `success data` - a 2xx response with parsed JSON body `data`;
* `netError msg` - `fetch` (or body parsing) threw with message `msg`. -/
inductive ProviderResponse where
  | rateLimited (payload : Option String)
  | httpError (status : Nat)
  | success (data : ApiData)
  | netError (msg : String)

/-- A delay performed by the client: a rate-limit wait (hint plus safety
margin) or the progressive pending-status backoff. -/
inductive WaitEvent where
  | rate (ms : Nat)
  | backoff (ms : Nat)
deriving DecidableEq

/-- The value `callFrontApi` resolves with: `{ apiData }` or
`{ error }`. -/
inductive CallOutcome where
  | apiData (d : ApiData)
  | errorMsg (msg : String)
deriving DecidableEq

/-- First maximal digit run of a character list (the JavaScript
`.match(/\d+/)?.[0]`). -/
def firstDigitRun : List Char → Option (List Char)
  | [] => none
  | c :: rest =>
    if c.isDigit then some (c :: rest.takeWhile Char.isDigit)
    else firstDigitRun rest

/-- Numeric value of a digit run (what `parseInt` returns on it). -/
def digitsVal (cs : List Char) : Nat :=
  cs.foldl (fun n c => n * 10 + (c.toNat - 48)) 0

/-- The wait `parseInt(errorData._error?.message?.match(/\d+/)?.[0] || 5000)`
computed for a 429 response: the first digit run of the hint message,
or the 5000 ms default when the message is absent or has no digits. -/
def rateLimitWaitMs (payload : Option String) : Nat :=
  match payload with
  | none => 5000
  | some s =>
    match firstDigitRun s.data with
    | some ds => digitsVal ds
    | none => 5000

/-- Trace of one `callFrontApi` invocation: the resolved value, the
number of HTTP attempts made, and the sequence of delays performed. -/
structure CallTrace where
  outcome : CallOutcome
  attempts : Nat
  waits : List WaitEvent
deriving DecidableEq

/-- The retry loop of `callFrontApi`, modelled with `fuel` standing for
`maxRetries - retries` (the loop guard `while (retries < maxRetries)`).
`provider n` is the provider's reaction to the attempt made when
`retries = n`.  Each iteration performs exactly one HTTP attempt and
either resolves or continues with `retries + 1`:

* 429: wait the parsed hint plus 1000 ms and continue;
* non-ok: the thrown `API error: <status>` is caught and resolved as an
  error value;
* `status === 'done'`: resolve with the data;
* otherwise (pending): continue after the progressive backoff
  `min(2500 + retries * 500, 8000)`, skipped when the budget is
  exhausted;
* a throw from `fetch`/`json()` is caught and resolved as an error. -/
def callFrontApiAux (provider : Nat → ProviderResponse) (maxRetries : Nat) :
    Nat → Nat → CallTrace
  | 0, _ => ⟨.errorMsg "Max retries reached", 0, []⟩
  | fuel + 1, retries =>
    match provider retries with
    | .rateLimited payload =>
      let rest := callFrontApiAux provider maxRetries fuel (retries + 1)
      ⟨rest.outcome, rest.attempts + 1, .rate (rateLimitWaitMs payload + 1000) :: rest.waits⟩
    | .httpError status => ⟨.errorMsg ("API error: " ++ toString status), 1, []⟩
    | .netError msg => ⟨.errorMsg msg, 1, []⟩
    | .success d =>
      if d.status = "done" then ⟨.apiData d, 1, []⟩
      else
        let rest := callFrontApiAux provider maxRetries fuel (retries + 1)
        if retries + 1 < maxRetries then
          ⟨rest.outcome, rest.attempts + 1,
            .backoff (min (2500 + (retries + 1) * 500) 8000) :: rest.waits⟩
        else ⟨rest.outcome, rest.attempts + 1, rest.waits⟩

/-- `callFrontApi` with the source's retry budget of 25. -/
def callFrontApi (provider : Nat → ProviderResponse) : CallTrace :=
  callFrontApiAux provider 25 25 0

/-- A provider response that keeps the loop going: rate-limited, or a
2xx body whose status is not yet `"done"`. -/
def nonTerminal (p : ProviderResponse) : Prop :=
  (∃ payload, p = .rateLimited payload) ∨
    (∃ d, p = .success d ∧ d.status ≠ "done")

/-- Budget exhaustion, aux form: if every attempt from `retries` on gets
a non-terminal response, the loop consumes its whole fuel, makes one
attempt per fuel unit and resolves with the error value. -/
theorem callFrontApiAux_exhaust (provider : Nat → ProviderResponse) (maxRetries : Nat) :
    ∀ fuel retries, (∀ i, retries ≤ i → i < retries + fuel → nonTerminal (provider i)) →
      (callFrontApiAux provider maxRetries fuel retries).outcome =
          .errorMsg "Max retries reached" ∧
        (callFrontApiAux provider maxRetries fuel retries).attempts = fuel := by
  intro fuel
  induction fuel with
  | zero => intro retries _; exact ⟨rfl, rfl⟩
  | succ n ih =>
    intro retries h
    have hcur := h retries (le_refl _) (by omega)
    have ihn := ih (retries + 1) (fun i h1 h2 => h i (by omega) (by omega))
    unfold callFrontApiAux
    rcases hcur with ⟨payload, hp⟩ | ⟨d, hp, hd⟩
    · rw [hp]
      dsimp only
      exact ⟨ihn.1, by rw [ihn.2]⟩
    · rw [hp]
      dsimp only
      rw [if_neg hd]
      by_cases hlt : retries + 1 < maxRetries
      · simp only [if_pos hlt]
        exact ⟨ihn.1, by rw [ihn.2]⟩
      · simp only [if_neg hlt]
        exact ⟨ihn.1, by rw [ihn.2]⟩

/-- C3. If the provider never resolves terminally within the retry
budget (every response is rate-limited or still pending), a single
`callFrontApi` invocation resolves - it does not throw - with the
error value `"Max retries reached"`, and the number of HTTP attempts
made is exactly the configured maximum, 25. -/
theorem callFrontApi_budget_exhaustion (provider : Nat → ProviderResponse)
    (h : ∀ i, i < 25 → nonTerminal (provider i)) :
    (callFrontApi provider).outcome = .errorMsg "Max retries reached" ∧
      (callFrontApi provider).attempts = 25 := by
  unfold callFrontApi
  exact callFrontApiAux_exhaust provider 25 25 0 (fun i _ h2 => h i (by omega))

/-- Witness for C3: a provider that always answers "pending". -/
theorem callFrontApi_budget_exhaustion_witness :
    (callFrontApi (fun _ => .success ⟨"pending", none⟩)).outcome =
        .errorMsg "Max retries reached" ∧
      (callFrontApi (fun _ => .success ⟨"pending", none⟩)).attempts = 25 :=
  callFrontApi_budget_exhaustion (fun _ => .success ⟨"pending", none⟩)
    (fun i _ => Or.inr ⟨⟨"pending", none⟩, rfl, by decide⟩)

/-- A character list without digits has no digit run. -/
theorem firstDigitRun_eq_none (cs : List Char) (h : ∀ c ∈ cs, ¬ c.isDigit) :
    firstDigitRun cs = none := by
  induction cs with
  | nil => rfl
  | cons c rest ih =>
    unfold firstDigitRun
    rw [if_neg (h c (List.mem_cons_self c rest))]
    exact ih (fun c' hc' => h c' (List.mem_cons_of_mem c hc'))

/-- C4. A 429 provider response makes the client wait the hint parsed
from the error payload plus the 1000 ms safety margin - recorded as a
rate-limit wait, never as the pending-status progressive backoff - and
then retry the same request (the loop continues at the next attempt
with one more HTTP attempt counted).  When the payload is absent or
contains no digits, the parsed hint falls back to the 5000 ms
default. -/
theorem rateLimit_hint_honored (provider : Nat → ProviderResponse)
    (maxRetries fuel retries : Nat) (payload : Option String)
    (hp : provider retries = .rateLimited payload) :
    callFrontApiAux provider maxRetries (fuel + 1) retries =
      ⟨(callFrontApiAux provider maxRetries fuel (retries + 1)).outcome,
        (callFrontApiAux provider maxRetries fuel (retries + 1)).attempts + 1,
        .rate (rateLimitWaitMs payload + 1000) ::
          (callFrontApiAux provider maxRetries fuel (retries + 1)).waits⟩ ∧
    (payload = none → rateLimitWaitMs payload = 5000) ∧
    (∀ s, payload = some s → (∀ c ∈ s.data, ¬ c.isDigit) →
      rateLimitWaitMs payload = 5000) := by
  refine ⟨?_, ?_, ?_⟩
  · conv_lhs => unfold callFrontApiAux
    rw [hp]
  · intro h
    rw [h]
    rfl
  · intro s hs hdig
    rw [hs]
    unfold rateLimitWaitMs
    dsimp only
    rw [firstDigitRun_eq_none s.data hdig]

/-- Witness for C4: a 429 payload hinting 429 ms produces a 1429 ms
rate wait before the retry. -/
theorem rateLimit_hint_honored_witness :
    callFrontApiAux (fun _ => .rateLimited (some "wait 429 ms")) 25 2 0 =
      ⟨(callFrontApiAux (fun _ => .rateLimited (some "wait 429 ms")) 25 1 1).outcome,
        (callFrontApiAux (fun _ => .rateLimited (some "wait 429 ms")) 25 1 1).attempts + 1,
        .rate (rateLimitWaitMs (some "wait 429 ms") + 1000) ::
          (callFrontApiAux (fun _ => .rateLimited (some "wait 429 ms")) 25 1 1).waits⟩ ∧
    (some "wait 429 ms" = none → rateLimitWaitMs (some "wait 429 ms") = 5000) ∧
    (∀ s, some "wait 429 ms" = some s → (∀ c ∈ s.data, ¬ c.isDigit) →
      rateLimitWaitMs (some "wait 429 ms") = 5000) :=
  rateLimit_hint_honored (fun _ => .rateLimited (some "wait 429 ms")) 25 1 0
    (some "wait 429 ms") rfl

/-! ## Regenerator: `precalculateDepartment` / `precalculateIndividuals` -/

/-- Per-tenant credentials row (`db.getTenantApiKeys`): absent columns
are `none`. -/
structure TenantKeys where
  front_api_key : Option String
  front_api_key_individuals : Option String
  front_endpoint : Option String

/-- A tenant row, as read from the Directory. -/
structure Tenant where
  id : Int
  name : String
  slug : String

/-- The value a `callFrontApi` invocation resolves with, as consumed by
the regenerator loop: `{ apiData: data }` or `{ error: message }`. -/
inductive FetchOut where
  | withData (d : ApiData)
  | withError (msg : String)

/-- The engine's external collaborators, bundled: the clock/timezone
abstractions and one oracle per `db.*` / network call.
`fetch apiKey endpoint recordIndex user` stands for
`callFrontApi(requestBody(user), recordIndex, apiKey, endpoint)`;
`inboxNames`, `usersByInbox` and `individualUsers` already fold the
internal `catch { return [] }` of their wrappers; `tenantKeys`
(`db.getTenantApiKeys`, a bare `pool.query` with no internal catch) can
reject - `.error` models the rejected promise, `.ok none` a tenant row
that does not exist. -/
structure OrchEnv where
  now : NowParts
  toUnix : TzToUnix
  etDate : Nat → Int × Int × Int
  genAt : Nat
  fetch : String → String → Nat → SubjectRecord → FetchOut
  tenantKeys : Int → Except String (Option TenantKeys)
  getTenantById : Int → Option Tenant
  inboxNames : Int → List String
  usersByInbox : Int → String → List SubjectRecord
  individualUsers : Int → List SubjectRecord

/-- `Map.prototype.set`: overwrite the entry of key `k` if present,
otherwise append it (insertion order preserved). -/
def mapSet (m : List (String × ResultRecord)) (k : String) (v : ResultRecord) :
    List (String × ResultRecord) :=
  if m.any (fun p => p.1 == k) then
    m.map (fun p => if p.1 == k then (k, v) else p)
  else m ++ [(k, v)]

/-- `Map.prototype.get`: the entry stored under `k`, if any. -/
def mapGet (m : List (String × ResultRecord)) (k : String) : Option ResultRecord :=
  (m.find? (fun p => p.1 == k)).map (fun p => p.2)

/-- One step of building `existingSuccessMap`: keep `resp` only when
`resp.apiData && resp.apiData.metrics && resp.record` (a reusable
success), keyed by `resp.record.id`. -/
def successMapStep (m : List (String × ResultRecord)) (r : ResultRecord) :
    List (String × ResultRecord) :=
  match r.apiData, r.record with
  | some a, some rec => if a.metrics.isSome then mapSet m rec.id r else m
  | _, _ => m

/-- The `existingSuccessMap` of a prior cache document: its reusable
successful responses, keyed by record identifier. -/
def existingSuccessMap : Option CacheEntry → List (String × ResultRecord)
  | none => []
  | some c => c.apiResponses.foldl successMapStep []

/-- The response object pushed for a freshly fetched record:
`{ recordIndex, record: user, ...result }`. -/
def mkResponse (recordIndex : Nat) (user : SubjectRecord) : FetchOut → ResultRecord
  | .withData d => ⟨recordIndex, some user, some d, none⟩
  | .withError msg => ⟨recordIndex, some user, none, some msg⟩

/-- The `for (const [index, user] of users.entries())` loop of the
regenerator: reuse the mapped success for a user whose identifier is in
the success map, otherwise call the client.  Returns the built
`apiResponses` list and the list of users actually fetched over the
network (in order). -/
def buildResponses (fetch : Nat → SubjectRecord → FetchOut)
    (m : List (String × ResultRecord)) :
    List SubjectRecord → Nat → List ResultRecord × List SubjectRecord
  | [], _ => ([], [])
  | u :: rest, i =>
    match mapGet m u.id with
    | some r =>
      let t := buildResponses fetch m rest (i + 1)
      (r :: t.1, t.2)
    | none =>
      let t := buildResponses fetch m rest (i + 1)
      (mkResponse (i + 1) u (fetch (i + 1) u) :: t.1, u :: t.2)

/-- `precalculateDepartment(departmentName, rangeName, apiKey, endpoint,
tenantId, existingCache)`: resolve the range (an unknown range throws),
read the roster, return `null` on an empty roster, else build the
responses (merging prior successes) and assemble the cache document. -/
def precalculateDepartment (env : OrchEnv)
    (departmentName rangeName apiKey endpoint : String) (tenantId : Int)
    (existingCache : Option CacheEntry) : Except String (Option CacheEntry) :=
  match getDateRange env.now env.toUnix rangeName with
  | .error e => .error e
  | .ok range =>
    let users := env.usersByInbox tenantId departmentName
    if users.length = 0 then .ok none
    else
      let m := existingSuccessMap existingCache
      let built := buildResponses (env.fetch apiKey endpoint) m users 0
      .ok (some { department := departmentName, range := rangeName,
                  rangeLabel := range.label, timestampStart := range.start,
                  timestampEnd := range.stop, generatedAt := env.genAt,
                  totalRecords := users.length, apiResponses := built.1 })

/-- `precalculateIndividuals(rangeName, apiKey, endpoint, tenantId,
existingCache)`: as `precalculateDepartment` but over the tenant-wide
individual roster, stored under the synthetic department
`"individuals"`. -/
def precalculateIndividuals (env : OrchEnv) (rangeName apiKey endpoint : String)
    (tenantId : Int) (existingCache : Option CacheEntry) :
    Except String (Option CacheEntry) :=
  match getDateRange env.now env.toUnix rangeName with
  | .error e => .error e
  | .ok range =>
    let users := env.individualUsers tenantId
    if users.length = 0 then .ok none
    else
      let m := existingSuccessMap existingCache
      let built := buildResponses (env.fetch apiKey endpoint) m users 0
      .ok (some { department := "individuals", range := rangeName,
                  rangeLabel := range.label, timestampStart := range.start,
                  timestampEnd := range.stop, generatedAt := env.genAt,
                  totalRecords := users.length, apiResponses := built.1 })

/-- The regenerator loop produces one response per roster member. -/
theorem buildResponses_length (fetch : Nat → SubjectRecord → FetchOut)
    (m : List (String × ResultRecord)) :
    ∀ (us : List SubjectRecord) (i : Nat),
      (buildResponses fetch m us i).1.length = us.length := by
  intro us
  induction us with
  | nil => intro i; rfl
  | cons u rest ih =>
    intro i
    unfold buildResponses
    cases h : mapGet m u.id <;> simp [ih (i + 1)]

/-- The users the regenerator loop sends over the network are exactly
the roster members whose identifier has no prior success. -/
theorem buildResponses_calls (fetch : Nat → SubjectRecord → FetchOut)
    (m : List (String × ResultRecord)) :
    ∀ (us : List SubjectRecord) (i : Nat),
      (buildResponses fetch m us i).2 =
        us.filter (fun u => (mapGet m u.id).isNone) := by
  intro us
  induction us with
  | nil => intro i; rfl
  | cons u rest ih =>
    intro i
    unfold buildResponses
    cases h : mapGet m u.id <;> simp [h, List.filter_cons, ih (i + 1)]

/-- A roster member whose identifier has a prior success receives, at
its position, exactly the mapped prior response object. -/
theorem buildResponses_copied (fetch : Nat → SubjectRecord → FetchOut)
    (m : List (String × ResultRecord)) :
    ∀ (us : List SubjectRecord) (i j : Nat) (hj : j < us.length)
      (r : ResultRecord), mapGet m (us.get ⟨j, hj⟩).id = some r →
      (buildResponses fetch m us i).1[j]? = some r := by
  intro us
  induction us with
  | nil => intro i j hj; simp at hj
  | cons u rest ih =>
    intro i j hj r hr
    unfold buildResponses
    cases j with
    | zero =>
      simp only [List.get] at hr
      rw [hr]
      simp
    | succ n =>
      simp only [List.get] at hr
      have := ih (i + 1) n (by simpa using hj) r hr
      cases h : mapGet m u.id <;> simpa [h] using this

/-- A fresh roster member (no prior success) receives, at its position,
a freshly built response recording that member. -/
theorem buildResponses_fresh (fetch : Nat → SubjectRecord → FetchOut)
    (m : List (String × ResultRecord)) :
    ∀ (us : List SubjectRecord) (i j : Nat) (hj : j < us.length),
      mapGet m (us.get ⟨j, hj⟩).id = none →
      (buildResponses fetch m us i).1[j]? =
        some (mkResponse (i + j + 1) (us.get ⟨j, hj⟩)
          (fetch (i + j + 1) (us.get ⟨j, hj⟩))) := by
  intro us
  induction us with
  | nil => intro i j hj; simp at hj
  | cons u rest ih =>
    intro i j hj hr
    unfold buildResponses
    cases j with
    | zero =>
      simp only [List.get] at hr ⊢
      rw [hr]
      simp
    | succ n =>
      simp only [List.get] at hr ⊢
      have := ih (i + 1) n (by simpa using hj) hr
      have harith : i + 1 + n + 1 = i + (n + 1) + 1 := by omega
      rw [harith] at this
      cases h : mapGet m u.id <;> simpa [h] using this

/-- C2. A merge regeneration over a roster of `n` members, given a prior
entry, calls the MetricsClient exactly for the members whose identifier
has no successful prior payload - hence `n - k` calls when `k` members
have one - copies each of the `k` prior successful responses unchanged
into the new entry at that member's roster position, and returns an
entry of exactly `n` responses (and `totalRecords = n`). -/
theorem merge_regeneration (env : OrchEnv) (dept rng apiKey endpoint : String)
    (tenantId : Int) (existing : Option CacheEntry) (spec : RangeSpec)
    (hr : getDateRange env.now env.toUnix rng = .ok spec)
    (hne : env.usersByInbox tenantId dept ≠ []) :
    ∃ entry,
      precalculateDepartment env dept rng apiKey endpoint tenantId existing =
          .ok (some entry) ∧
      entry.totalRecords = (env.usersByInbox tenantId dept).length ∧
      entry.apiResponses.length = (env.usersByInbox tenantId dept).length ∧
      (buildResponses (env.fetch apiKey endpoint) (existingSuccessMap existing)
          (env.usersByInbox tenantId dept) 0).2 =
        (env.usersByInbox tenantId dept).filter
          (fun u => (mapGet (existingSuccessMap existing) u.id).isNone) ∧
      (buildResponses (env.fetch apiKey endpoint) (existingSuccessMap existing)
          (env.usersByInbox tenantId dept) 0).2.length =
        (env.usersByInbox tenantId dept).length -
          ((env.usersByInbox tenantId dept).filter
            (fun u => (mapGet (existingSuccessMap existing) u.id).isSome)).length ∧
      (∀ (j : Nat) (hj : j < (env.usersByInbox tenantId dept).length)
        (r : ResultRecord),
        mapGet (existingSuccessMap existing)
            ((env.usersByInbox tenantId dept).get ⟨j, hj⟩).id = some r →
        entry.apiResponses[j]? = some r) := by
  have hmain : precalculateDepartment env dept rng apiKey endpoint tenantId existing =
      .ok (some { department := dept, range := rng, rangeLabel := spec.label,
                  timestampStart := spec.start, timestampEnd := spec.stop,
                  generatedAt := env.genAt,
                  totalRecords := (env.usersByInbox tenantId dept).length,
                  apiResponses := (buildResponses (env.fetch apiKey endpoint)
                    (existingSuccessMap existing) (env.usersByInbox tenantId dept) 0).1 }) := by
    unfold precalculateDepartment
    rw [hr]
    dsimp only
    rw [if_neg (fun h => hne (List.length_eq_zero.mp h))]
  refine ⟨_, hmain, rfl, ?_, ?_, ?_, ?_⟩
  · exact buildResponses_length _ _ _ _
  · exact buildResponses_calls _ _ _ _
  · rw [buildResponses_calls]
    have hpart := List.length_eq_length_filter_add
      (l := env.usersByInbox tenantId dept)
      (fun u => (mapGet (existingSuccessMap existing) u.id).isSome)
    have hcong : (env.usersByInbox tenantId dept).filter
        (fun u => !(mapGet (existingSuccessMap existing) u.id).isSome) =
        (env.usersByInbox tenantId dept).filter
          (fun u => (mapGet (existingSuccessMap existing) u.id).isNone) := by
      apply List.filter_congr
      intro u _
      cases mapGet (existingSuccessMap existing) u.id <;> rfl
    rw [hcong] at hpart
    omega
  · intro j hj r hmap
    exact buildResponses_copied _ _ _ _ _ _ _ hmap

/-- The concrete environment used by the regenerator witnesses:
a two-member Billing roster, one individual, a provider that always
completes. -/
def envW : OrchEnv :=
  { now := ⟨2024, 4, 15, 3⟩, toUnix := tzStub, etDate := fun _ => (2024, 5, 15),
    genAt := 77,
    fetch := fun _ _ _ _ => .withData ⟨"done", some [1, 2, 3]⟩,
    tenantKeys := fun _ => .ok (some ⟨some "K", some "KI", none⟩),
    getTenantById := fun _ => some ⟨1, "Acme", "acme"⟩,
    inboxNames := fun _ => ["Billing"],
    usersByInbox := fun _ _ => [⟨"u1", "Ann", "c1"⟩, ⟨"u2", "Bob", "c2"⟩],
    individualUsers := fun _ => [⟨"u9", "Eve", "c9"⟩] }

/-- A prior entry for the witness: one error (u1), one success (u2). -/
def priorW : CacheEntry :=
  { department := "Billing", range := "lastWeek", rangeLabel := "Last Week",
    timestampStart := 0, timestampEnd := 0, generatedAt := 1, totalRecords := 2,
    apiResponses :=
      [⟨1, some ⟨"u1", "Ann", "c1"⟩, none, some "boom"⟩,
       ⟨2, some ⟨"u2", "Bob", "c2"⟩, some ⟨"done", some [5, 6, 7]⟩, none⟩] }

/-- The range spec `envW` resolves `lastWeek` to (May 15 2024 is a
Wednesday; the completed week is Sun May 5 .. Sat May 11). -/
def specW : RangeSpec :=
  { start := tzStub 2024 4 5 0 0 0, stop := tzStub 2024 4 11 23 59 59,
    label := "Last Week" }

/-- Witness for C2 on a 2-member roster with 1 prior success. -/
theorem merge_regeneration_witness :
    ∃ entry,
      precalculateDepartment envW "Billing" "lastWeek" "K" "EP" 1 (some priorW) =
          .ok (some entry) ∧
      entry.totalRecords = (envW.usersByInbox 1 "Billing").length ∧
      entry.apiResponses.length = (envW.usersByInbox 1 "Billing").length ∧
      (buildResponses (envW.fetch "K" "EP") (existingSuccessMap (some priorW))
          (envW.usersByInbox 1 "Billing") 0).2 =
        (envW.usersByInbox 1 "Billing").filter
          (fun u => (mapGet (existingSuccessMap (some priorW)) u.id).isNone) ∧
      (buildResponses (envW.fetch "K" "EP") (existingSuccessMap (some priorW))
          (envW.usersByInbox 1 "Billing") 0).2.length =
        (envW.usersByInbox 1 "Billing").length -
          ((envW.usersByInbox 1 "Billing").filter
            (fun u => (mapGet (existingSuccessMap (some priorW)) u.id).isSome)).length ∧
      (∀ (j : Nat) (hj : j < (envW.usersByInbox 1 "Billing").length)
        (r : ResultRecord),
        mapGet (existingSuccessMap (some priorW))
            ((envW.usersByInbox 1 "Billing").get ⟨j, hj⟩).id = some r →
        entry.apiResponses[j]? = some r) :=
  merge_regeneration envW "Billing" "lastWeek" "K" "EP" 1 (some priorW) specW
    rfl (by decide)

/-- Replacing the entry of key `k'` leaves lookups of other keys
unchanged. -/
theorem findMapReplace_ne (k' k : String) (v : ResultRecord)
    (hk : (k' == k) = false) :
    ∀ m : List (String × ResultRecord),
      (m.map (fun p => if p.1 == k' then (k', v) else p)).find? (fun p => p.1 == k) =
        m.find? (fun p => p.1 == k) := by
  intro m
  induction m with
  | nil => rfl
  | cons p rest ih =>
    simp only [List.map_cons]
    by_cases hp : (p.1 == k') = true
    · have hpk : p.1 = k' := beq_iff_eq.mp hp
      rw [if_pos hp]
      simp only [List.find?_cons, hpk, hk]
      exact ih
    · rw [if_neg hp]
      simp only [List.find?_cons]
      cases hpk : (p.1 == k) with
      | true => rfl
      | false => exact ih

/-- Replacement lookup of the replaced key finds the new value. -/
theorem findMapReplace_self (k : String) (v : ResultRecord) :
    ∀ m : List (String × ResultRecord), m.any (fun p => p.1 == k) = true →
      (m.map (fun p => if p.1 == k then (k, v) else p)).find? (fun p => p.1 == k) =
        some (k, v) := by
  intro m
  induction m with
  | nil => intro h; simp at h
  | cons p rest ih =>
    intro h
    simp only [List.map_cons]
    by_cases hp : (p.1 == k) = true
    · rw [if_pos hp]
      simp only [List.find?_cons, beq_self_eq_true]
    · rw [if_neg hp]
      simp only [List.find?_cons, hp]
      apply ih
      simpa [List.any_cons, hp] using h

/-- `Map.set` then `Map.get` of the same key yields the set value. -/
theorem mapGet_mapSet_self (m : List (String × ResultRecord)) (k : String)
    (v : ResultRecord) : mapGet (mapSet m k v) k = some v := by
  unfold mapSet mapGet
  cases hany : m.any (fun p => p.1 == k) with
  | true =>
    rw [if_pos rfl, findMapReplace_self k v m hany]
    rfl
  | false =>
    rw [if_neg (by simp)]
    rw [List.find?_append]
    have hnone : m.find? (fun p => p.1 == k) = none := by
      rw [List.find?_eq_none]
      intro x hx hxk
      have hcontra : m.any (fun p => p.1 == k) = true :=
        List.any_eq_true.mpr ⟨x, hx, hxk⟩
      rw [hany] at hcontra
      exact Bool.noConfusion hcontra
    rw [hnone]
    simp

/-- `Map.set` then `Map.get` of a different key is unchanged. -/
theorem mapGet_mapSet_ne (m : List (String × ResultRecord)) (k' : String)
    (v : ResultRecord) (k : String) (hk : k ≠ k') :
    mapGet (mapSet m k' v) k = mapGet m k := by
  unfold mapSet mapGet
  have hbeq : (k' == k) = false := beq_eq_false_iff_ne.mpr (Ne.symm hk)
  cases hany : m.any (fun p => p.1 == k') with
  | true =>
    rw [if_pos rfl, findMapReplace_ne k' k v hbeq m]
  | false =>
    rw [if_neg (by simp)]
    rw [List.find?_append]
    have h1 : ([(k', v)]).find? (fun p => p.1 == k) = none := by
      simp [List.find?_cons, hbeq]
    rw [h1]
    simp

/-- Every value of `existingSuccessMap` is a response recording a
subject whose identifier is the lookup key. -/
theorem successMap_fold_inv :
    ∀ (l : List ResultRecord) (acc : List (String × ResultRecord)),
      (∀ k r, mapGet acc k = some r → ∃ rec, r.record = some rec ∧ rec.id = k) →
      ∀ k r, mapGet (l.foldl successMapStep acc) k = some r →
        ∃ rec, r.record = some rec ∧ rec.id = k := by
  intro l
  induction l with
  | nil => intro acc hacc; exact hacc
  | cons x rest ih =>
    intro acc hacc
    rw [List.foldl_cons]
    apply ih
    intro k r h
    unfold successMapStep at h
    rcases ha : x.apiData with _ | a <;> rcases hx : x.record with _ | rec <;>
      rw [ha, hx] at h
    · exact hacc k r h
    · exact hacc k r h
    · exact hacc k r h
    · dsimp only at h
      by_cases hm : a.metrics.isSome = true
      · rw [if_pos hm] at h
        by_cases hkk : k = rec.id
        · subst hkk
          rw [mapGet_mapSet_self] at h
          exact ⟨rec, by rw [← Option.some.inj h]; exact hx, rfl⟩
        · rw [mapGet_mapSet_ne acc rec.id x k hkk] at h
          exact hacc k r h
      · rw [if_neg hm] at h
        exact hacc k r h

/-- Key consistency of the success map of a prior entry. -/
theorem existingSuccessMap_record_id (e : Option CacheEntry) (k : String)
    (r : ResultRecord) (h : mapGet (existingSuccessMap e) k = some r) :
    ∃ rec, r.record = some rec ∧ rec.id = k := by
  cases e with
  | none => simp [existingSuccessMap, mapGet] at h
  | some c =>
    exact successMap_fold_inv c.apiResponses []
      (fun k r h => by simp [mapGet] at h) k r h

/-- Each built response records a subject with the roster identifier of
its position, whether copied from the prior entry or freshly fetched. -/
theorem buildResponses_mirrors (fetch : Nat → SubjectRecord → FetchOut)
    (e : Option CacheEntry) (users : List SubjectRecord) (j : Nat)
    (hj : j < users.length) :
    ∃ rr rec,
      (buildResponses fetch (existingSuccessMap e) users 0).1[j]? = some rr ∧
        rr.record = some rec ∧ rec.id = (users.get ⟨j, hj⟩).id := by
  cases hmap : mapGet (existingSuccessMap e) (users.get ⟨j, hj⟩).id with
  | some r =>
    obtain ⟨rec, hrec, hid⟩ := existingSuccessMap_record_id e _ r hmap
    exact ⟨r, rec, buildResponses_copied fetch _ users 0 j hj r hmap, hrec, hid⟩
  | none =>
    refine ⟨_, users.get ⟨j, hj⟩, buildResponses_fresh fetch _ users 0 j hj hmap, ?_, rfl⟩
    cases fetch (0 + j + 1) (users.get ⟨j, hj⟩) <;> rfl

/-! ## CacheStore: `saveToCache` / `readFromCache` and the file layout -/

/-- The fallback analytics endpoint. -/
def defaultEndpoint : String := "https://api2.frontapp.com/analytics/reports"

/-- `keys.front_endpoint || defaultEndpoint` (an empty string is falsy). -/
def endpointOf (keys : TenantKeys) : String :=
  match keys.front_endpoint with
  | some s => if s == "" then defaultEndpoint else s
  | none => defaultEndpoint

/-- `departmentName.toLowerCase().replace(/\s+/g, '-')`: each maximal
whitespace run collapses to a single hyphen (the flag tracks whether the
previous character was whitespace). -/
def slugifyAux : List Char → Bool → List Char
  | [], _ => []
  | c :: rest, prevWs =>
    if c.isWhitespace then
      (if prevWs then [] else ['-']) ++ slugifyAux rest true
    else c :: slugifyAux rest false

/-- The department slug used inside cache filenames. -/
def slugifyDept (s : String) : String := String.mk (slugifyAux s.toLower.data false)

/-- `` `${tenantSlug}_${slug(department)}_${rangeName}.json` ``. -/
def cacheFileName (tenantSlug departmentName rangeName : String) : String :=
  tenantSlug ++ "_" ++ slugifyDept departmentName ++ "_" ++ rangeName ++ ".json"

/-- The cache directory: one entry per present filename. -/
abbrev CacheStore := List (String × CacheEntry)

/-- `readFromCache`: parse the file when it exists, else `null`. -/
def readFromCache (st : CacheStore) (tenantSlug departmentName rangeName : String) :
    Option CacheEntry :=
  (st.find? (fun p => p.1 == cacheFileName tenantSlug departmentName rangeName)).map
    (fun p => p.2)

/-- `fs.unlinkSync` when the file exists (no-op otherwise). -/
def deleteCacheFile (st : CacheStore) (filename : String) : CacheStore :=
  st.filter (fun p => !(p.1 == filename))

/-- `saveToCache`: overwrite the file wholesale. -/
def saveToCache (st : CacheStore) (tenantSlug departmentName rangeName : String)
    (data : CacheEntry) : CacheStore :=
  deleteCacheFile st (cacheFileName tenantSlug departmentName rangeName) ++
    [(cacheFileName tenantSlug departmentName rangeName, data)]

/-! ## Orchestrator: `runPrecalculation` -/

/-- The ranges precalculated daily. -/
def RANGES : List String := ["lastWeek", "lastMonth", "lastQuarter"]

/-- One processed (tenant, subject, range) combination, for the run
log. -/
structure ComboLog where
  slug : String
  department : String
  range : String
deriving DecidableEq

/-- The body of the inner range loop for a department (source lines
497-521): read the cache, apply the staleness policy, regenerate, and
write through on success; a thrown error is caught and logged, leaving
the store untouched. -/
def processDeptRange (env : OrchEnv) (forceAll : Bool)
    (slug apiKey endpoint : String) (tenantId : Int)
    (department rangeName : String) (st : CacheStore) : CacheStore :=
  let cached := readFromCache st slug department rangeName
  match schedulerDecision env.now env.etDate forceAll rangeName cached with
  | none => st
  | some prior =>
    match precalculateDepartment env department rangeName apiKey endpoint tenantId prior with
    | .error _ => st
    | .ok none => st
    | .ok (some d) => saveToCache st slug department rangeName d

/-- The body of the inner range loop for the individuals subject
(source lines 530-554). -/
def processIndRange (env : OrchEnv) (forceAll : Bool)
    (slug apiKeyInd endpoint : String) (tenantId : Int)
    (rangeName : String) (st : CacheStore) : CacheStore :=
  let cached := readFromCache st slug "individuals" rangeName
  match schedulerDecision env.now env.etDate forceAll rangeName cached with
  | none => st
  | some prior =>
    match precalculateIndividuals env rangeName apiKeyInd endpoint tenantId prior with
    | .error _ => st
    | .ok none => st
    | .ok (some d) => saveToCache st slug "individuals" rangeName d

/-- `for (const rangeName of RANGES)`, department variant, logging each
visited combination. -/
def processRangesDept (env : OrchEnv) (forceAll : Bool)
    (slug apiKey endpoint : String) (tenantId : Int) (department : String) :
    List String → CacheStore → CacheStore × List ComboLog
  | [], st => (st, [])
  | rng :: rest, st =>
    let st1 := processDeptRange env forceAll slug apiKey endpoint tenantId department rng st
    let t := processRangesDept env forceAll slug apiKey endpoint tenantId department rest st1
    (t.1, ⟨slug, department, rng⟩ :: t.2)

/-- `for (const rangeName of RANGES)`, individuals variant. -/
def processRangesInd (env : OrchEnv) (forceAll : Bool)
    (slug apiKeyInd endpoint : String) (tenantId : Int) :
    List String → CacheStore → CacheStore × List ComboLog
  | [], st => (st, [])
  | rng :: rest, st =>
    let st1 := processIndRange env forceAll slug apiKeyInd endpoint tenantId rng st
    let t := processRangesInd env forceAll slug apiKeyInd endpoint tenantId rest st1
    (t.1, ⟨slug, "individuals", rng⟩ :: t.2)

/-- `for (const department of departments)`. -/
def processDepartments (env : OrchEnv) (forceAll : Bool)
    (slug apiKey endpoint : String) (tenantId : Int) :
    List String → CacheStore → CacheStore × List ComboLog
  | [], st => (st, [])
  | dept :: rest, st =>
    let t1 := processRangesDept env forceAll slug apiKey endpoint tenantId dept RANGES st
    let t2 := processDepartments env forceAll slug apiKey endpoint tenantId rest t1.1
    (t2.1, t1.2 ++ t2.2)

/-- The per-tenant body of `runPrecalculation`.  The credentials lookup
`await db.getTenantApiKeys(tenant.id)` (source line 475) is awaited
outside any try/catch, so a rejected lookup propagates as `.error` out
of the whole run; a tenant without a usable department credential is
skipped; otherwise every department is processed, then the individuals
subject when that credential is configured. -/
def processTenant (env : OrchEnv) (forceAll : Bool) (t : Tenant)
    (st : CacheStore) : Except String (CacheStore × List ComboLog) :=
  match env.tenantKeys t.id with
  | .error e => .error e
  | .ok none => .ok (st, [])
  | .ok (some keys) =>
    if jsTruthyStr keys.front_api_key then
      let apiKey := keys.front_api_key.getD ""
      let endpoint := endpointOf keys
      let t1 := processDepartments env forceAll t.slug apiKey endpoint t.id
        (env.inboxNames t.id) st
      if jsTruthyStr keys.front_api_key_individuals then
        let t2 := processRangesInd env forceAll t.slug
          (keys.front_api_key_individuals.getD "") endpoint t.id RANGES t1.1
        .ok (t2.1, t1.2 ++ t2.2)
      else .ok (t1.1, t1.2)
    else .ok (st, [])

/-- `runPrecalculation(forceAll)` over the active tenants (supplied by
the Directory), threading the cache store and logging every processed
combination.  An uncaught rejection from one tenant's credentials
lookup rejects the whole run: the remaining tenants are never
reached. -/
def runPrecalculation (env : OrchEnv) (forceAll : Bool) :
    List Tenant → CacheStore → Except String (CacheStore × List ComboLog)
  | [], st => .ok (st, [])
  | t :: rest, st =>
    match processTenant env forceAll t st with
    | .error e => .error e
    | .ok t1 =>
      match runPrecalculation env forceAll rest t1.1 with
      | .error e => .error e
      | .ok t2 => .ok (t2.1, t1.2 ++ t2.2)

/-! ## Scheduler on-demand path: `regenerateSpecific` -/

/-- One per-item outcome pushed to `results`. -/
structure ItemResult where
  department : String
  range : String
  status : String
  totalRecords : Option Nat
  errors : Option Nat
  error : Option String
deriving DecidableEq

/-- `data.apiResponses.filter(r => r.error).length`. -/
def errorCount (d : CacheEntry) : Nat :=
  (d.apiResponses.filter (fun r => jsTruthyStr r.error)).length

/-- The per-item status:
`errors === 0 ? 'success' : (errors < data.totalRecords ? 'partial' : 'error')`. -/
def itemStatus (d : CacheEntry) : String :=
  if errorCount d = 0 then "success"
  else if errorCount d < d.totalRecords then "partial" else "error"

/-- Body of the `for (const [idx, item] of items.entries())` loop of
`regenerateSpecific` (source lines 615-657): unconditionally delete the
cache file, then recompute from scratch - the regenerator is invoked
with `null` as prior entry; a caught error, a `null` result (empty
roster) and a missing individuals credential all report `'error'`. -/
def processRegenItem (env : OrchEnv) (slug apiKey endpoint : String)
    (apiKeyInd : Option String) (tenantId : Int) (department range : String)
    (st : CacheStore) : ItemResult × CacheStore :=
  let st1 := deleteCacheFile st (cacheFileName slug department range)
  if department == "individuals" then
    if jsTruthyStr apiKeyInd then
      match precalculateIndividuals env range (apiKeyInd.getD "") endpoint tenantId none with
      | .error e => (⟨department, range, "error", none, none, some e⟩, st1)
      | .ok none =>
        (⟨department, range, "error", none, none,
          some "No data returned (no users found?)"⟩, st1)
      | .ok (some d) =>
        (⟨department, range, itemStatus d, some d.totalRecords, some (errorCount d), none⟩,
          saveToCache st1 slug department range d)
    else
      (⟨department, range, "error", none, none,
        some "No individual API key configured"⟩, st1)
  else
    match precalculateDepartment env department range apiKey endpoint tenantId none with
    | .error e => (⟨department, range, "error", none, none, some e⟩, st1)
    | .ok none =>
      (⟨department, range, "error", none, none,
        some "No data returned (no users found?)"⟩, st1)
    | .ok (some d) =>
      (⟨department, range, itemStatus d, some d.totalRecords, some (errorCount d), none⟩,
        saveToCache st1 slug department range d)

/-- The item loop of `regenerateSpecific`. -/
def regenerateSpecificItems (env : OrchEnv) (slug apiKey endpoint : String)
    (apiKeyInd : Option String) (tenantId : Int) :
    List (String × String) → CacheStore → List ItemResult × CacheStore
  | [], st => ([], st)
  | (dept, rng) :: rest, st =>
    let p := processRegenItem env slug apiKey endpoint apiKeyInd tenantId dept rng st
    let t := regenerateSpecificItems env slug apiKey endpoint apiKeyInd tenantId rest p.2
    (p.1 :: t.1, t.2)

/-- `regenerateSpecific(tenantId, items)`: resolve the tenant and its
credentials (both `throw` on failure), then run the item loop. -/
def regenerateSpecific (env : OrchEnv) (tenantId : Int)
    (items : List (String × String)) (st : CacheStore) :
    Except String (List ItemResult × CacheStore) :=
  match env.getTenantById tenantId with
  | none => .error ("Tenant " ++ toString tenantId ++ " not found")
  | some tenant =>
    match env.tenantKeys tenantId with
    | .error e => .error e
    | .ok none => .error "No Front API key configured for tenant"
    | .ok (some keys) =>
      if jsTruthyStr keys.front_api_key then
        .ok (regenerateSpecificItems env tenant.slug (keys.front_api_key.getD "")
          (endpointOf keys) keys.front_api_key_individuals tenantId items st)
      else .error "No Front API key configured for tenant"

/-- The department range loop visits every range, whatever the store
holds and however the regenerations turn out. -/
theorem processRangesDept_log (env : OrchEnv) (forceAll : Bool)
    (slug apiKey endpoint : String) (tenantId : Int) (department : String) :
    ∀ (rs : List String) (st : CacheStore),
      (processRangesDept env forceAll slug apiKey endpoint tenantId department rs st).2 =
        rs.map (fun r => ⟨slug, department, r⟩) := by
  intro rs
  induction rs with
  | nil => intro st; rfl
  | cons r rest ih =>
    intro st
    unfold processRangesDept
    simp [ih]

/-- The individuals range loop visits every range. -/
theorem processRangesInd_log (env : OrchEnv) (forceAll : Bool)
    (slug apiKeyInd endpoint : String) (tenantId : Int) :
    ∀ (rs : List String) (st : CacheStore),
      (processRangesInd env forceAll slug apiKeyInd endpoint tenantId rs st).2 =
        rs.map (fun r => ⟨slug, "individuals", r⟩) := by
  intro rs
  induction rs with
  | nil => intro st; rfl
  | cons r rest ih =>
    intro st
    unfold processRangesInd
    simp [ih]

/-- The department loop visits every department times every range. -/
theorem processDepartments_log (env : OrchEnv) (forceAll : Bool)
    (slug apiKey endpoint : String) (tenantId : Int) :
    ∀ (ds : List String) (st : CacheStore),
      (processDepartments env forceAll slug apiKey endpoint tenantId ds st).2 =
        ds.flatMap (fun d => RANGES.map (fun r => ⟨slug, d, r⟩)) := by
  intro ds
  induction ds with
  | nil => intro st; rfl
  | cons d rest ih =>
    intro st
    unfold processDepartments
    simp [ih, processRangesDept_log, List.flatMap_cons]

/-- The combinations one tenant contributes to a completed run. -/
def tenantSchedule (env : OrchEnv) (t : Tenant) : List ComboLog :=
  match env.tenantKeys t.id with
  | .error _ => []
  | .ok none => []
  | .ok (some keys) =>
    if jsTruthyStr keys.front_api_key then
      (env.inboxNames t.id).flatMap
          (fun d => RANGES.map (fun r => ⟨t.slug, d, r⟩)) ++
        (if jsTruthyStr keys.front_api_key_individuals then
          RANGES.map (fun r => ⟨t.slug, "individuals", r⟩)
        else [])
    else []

/-- When a tenant's credentials lookup resolves, its body completes and
logs exactly its schedule - all departments times the three ranges,
plus individuals when that credential is configured, nothing when the
department credential is unusable - regardless of the store contents
and of every provider or regeneration outcome. -/
theorem processTenant_ok (env : OrchEnv) (forceAll : Bool) (t : Tenant)
    (st : CacheStore) (ko : Option TenantKeys)
    (hko : env.tenantKeys t.id = .ok ko) :
    ∃ p, processTenant env forceAll t st = .ok p ∧ p.2 = tenantSchedule env t := by
  unfold processTenant tenantSchedule
  rw [hko]
  cases ko with
  | none => exact ⟨(st, []), rfl, rfl⟩
  | some keys =>
    dsimp only
    by_cases h1 : jsTruthyStr keys.front_api_key = true
    · rw [if_pos h1, if_pos h1]
      by_cases h2 : jsTruthyStr keys.front_api_key_individuals = true
      · rw [if_pos h2, if_pos h2]
        refine ⟨_, rfl, ?_⟩
        simp [processDepartments_log, processRangesInd_log]
      · rw [if_neg h2, if_neg h2]
        refine ⟨_, rfl, ?_⟩
        simp [processDepartments_log]
    · rw [if_neg h1, if_neg h1]
      exact ⟨(st, []), rfl, rfl⟩

/-- As long as no tenant's credentials lookup rejects, the run completes
and its log is the full schedule: the clauses of the propagation policy
the code does honor (per-combination errors caught, per-record failures
confined, credential-less tenants skipped without stopping the loop)
hold for every environment.  The rejection path excluded by the
hypothesis is the subject of `tenant_keys_failure_aborts_run`. -/
theorem run_processes_all_combinations (env : OrchEnv) (forceAll : Bool)
    (tenants : List Tenant) (st : CacheStore)
    (hok : ∀ t ∈ tenants, ∃ ko, env.tenantKeys t.id = .ok ko) :
    ∃ res, runPrecalculation env forceAll tenants st = .ok res ∧
      res.2 = tenants.flatMap (tenantSchedule env) := by
  induction tenants generalizing st with
  | nil => exact ⟨(st, []), rfl, rfl⟩
  | cons t rest ih =>
    obtain ⟨ko, hko⟩ := hok t (List.mem_cons_self t rest)
    obtain ⟨p, hp, hplog⟩ := processTenant_ok env forceAll t st ko hko
    obtain ⟨res, hres, hlog⟩ := ih p.1 (fun t' ht' => hok t' (List.mem_cons_of_mem t ht'))
    refine ⟨(res.1, p.2 ++ res.2), ?_, ?_⟩
    · have hstep : runPrecalculation env forceAll (t :: rest) st =
          match processTenant env forceAll t st with
          | .error e => .error e
          | .ok t1 =>
            match runPrecalculation env forceAll rest t1.1 with
            | .error e => .error e
            | .ok t2 => .ok (t2.1, t1.2 ++ t2.2) := rfl
      rw [hstep, hp]
      dsimp only
      rw [hres]
    · dsimp only
      rw [hplog, hlog, List.flatMap_cons]

/-- The environment exhibiting the uncaught credentials-lookup failure:
the Directory rejects `db.getTenantApiKeys` for tenant 1 and resolves
it for tenant 2. -/
def envAbort : OrchEnv :=
  { envW with
    tenantKeys := fun tid =>
      if tid = 1 then .error "db down" else .ok (some ⟨some "K", none, none⟩) }

/-- C9, failing path (code bug).  The claim - quoting the spec's
propagation policy - says no per-tenant failure aborts the run as a
whole: a Directory failure for one tenant skips that tenant only.  The
code breaks this on one path: `await db.getTenantApiKeys(tenant.id)`
(source line 475) is a bare `pool.query` awaited outside any try/catch,
unlike the sibling roster lookups, which all catch internally and
return `[]`.  Concretely: with the lookup rejecting for tenant 1, the
whole run rejects and tenant 2 is never processed, although the same
tenant 2 alone completes with its full three-range schedule. -/
theorem tenant_keys_failure_aborts_run :
    runPrecalculation envAbort false [⟨1, "Acme", "acme"⟩, ⟨2, "Beta", "beta"⟩] [] =
        .error "db down" ∧
    ∃ res, runPrecalculation envAbort false [⟨2, "Beta", "beta"⟩] [] = .ok res ∧
      res.2 = RANGES.map (fun r => ⟨"beta", "Billing", r⟩) := by
  constructor
  · rfl
  · exact ⟨_, rfl, rfl⟩

/-- Inversion: a produced department entry is built over the current
roster. -/
theorem precalcDept_inv (env : OrchEnv) (dept rng apiKey endpoint : String)
    (tenantId : Int) (existing : Option CacheEntry) (entry : CacheEntry)
    (h : precalculateDepartment env dept rng apiKey endpoint tenantId existing =
      .ok (some entry)) :
    entry.totalRecords = (env.usersByInbox tenantId dept).length ∧
      entry.apiResponses =
        (buildResponses (env.fetch apiKey endpoint) (existingSuccessMap existing)
          (env.usersByInbox tenantId dept) 0).1 := by
  unfold precalculateDepartment at h
  cases hgr : getDateRange env.now env.toUnix rng with
  | error e =>
    rw [hgr] at h
    simp at h
  | ok spec =>
    rw [hgr] at h
    dsimp only at h
    by_cases hlen : (env.usersByInbox tenantId dept).length = 0
    · rw [if_pos hlen] at h
      simp at h
    · rw [if_neg hlen] at h
      simp only [Except.ok.injEq, Option.some.injEq] at h
      rw [← h]
      exact ⟨rfl, rfl⟩

/-- Inversion: a produced individuals entry is built over the current
individual roster. -/
theorem precalcInd_inv (env : OrchEnv) (rng apiKey endpoint : String)
    (tenantId : Int) (existing : Option CacheEntry) (entry : CacheEntry)
    (h : precalculateIndividuals env rng apiKey endpoint tenantId existing =
      .ok (some entry)) :
    entry.totalRecords = (env.individualUsers tenantId).length ∧
      entry.apiResponses =
        (buildResponses (env.fetch apiKey endpoint) (existingSuccessMap existing)
          (env.individualUsers tenantId) 0).1 := by
  unfold precalculateIndividuals at h
  cases hgr : getDateRange env.now env.toUnix rng with
  | error e =>
    rw [hgr] at h
    simp at h
  | ok spec =>
    rw [hgr] at h
    dsimp only at h
    by_cases hlen : (env.individualUsers tenantId).length = 0
    · rw [if_pos hlen] at h
      simp at h
    · rw [if_neg hlen] at h
      simp only [Except.ok.injEq, Option.some.injEq] at h
      rw [← h]
      exact ⟨rfl, rfl⟩

/-- C10. Every entry a regeneration produces - merge or full, department
or individuals - carries exactly one `ResultRecord` per member of the
roster read at generation time, in roster order (the record at position
`j` names the identifier of roster member `j`), with `totalRecords`
equal to the roster length; consequently identifiers absent from the
current roster never appear, in merge mode included. -/
theorem entry_mirrors_roster (env : OrchEnv) (dept rng apiKey endpoint : String)
    (tenantId : Int) (existing : Option CacheEntry) (entry : CacheEntry) :
    (precalculateDepartment env dept rng apiKey endpoint tenantId existing =
        .ok (some entry) →
      entry.totalRecords = (env.usersByInbox tenantId dept).length ∧
      entry.apiResponses.length = (env.usersByInbox tenantId dept).length ∧
      (∀ (j : Nat) (hj : j < (env.usersByInbox tenantId dept).length),
        ∃ rr rec, entry.apiResponses[j]? = some rr ∧ rr.record = some rec ∧
          rec.id = ((env.usersByInbox tenantId dept).get ⟨j, hj⟩).id)) ∧
    (precalculateIndividuals env rng apiKey endpoint tenantId existing =
        .ok (some entry) →
      entry.totalRecords = (env.individualUsers tenantId).length ∧
      entry.apiResponses.length = (env.individualUsers tenantId).length ∧
      (∀ (j : Nat) (hj : j < (env.individualUsers tenantId).length),
        ∃ rr rec, entry.apiResponses[j]? = some rr ∧ rr.record = some rec ∧
          rec.id = ((env.individualUsers tenantId).get ⟨j, hj⟩).id)) := by
  constructor
  · intro h
    obtain ⟨h1, h2⟩ := precalcDept_inv env dept rng apiKey endpoint tenantId existing entry h
    refine ⟨h1, ?_, ?_⟩
    · rw [h2]
      exact buildResponses_length _ _ _ _
    · intro j hj
      rw [h2]
      exact buildResponses_mirrors _ existing _ j hj
  · intro h
    obtain ⟨h1, h2⟩ := precalcInd_inv env rng apiKey endpoint tenantId existing entry h
    refine ⟨h1, ?_, ?_⟩
    · rw [h2]
      exact buildResponses_length _ _ _ _
    · intro j hj
      rw [h2]
      exact buildResponses_mirrors _ existing _ j hj

/-- The entry the witness environment produces for the C10 witness:
member u1 freshly fetched, member u2 copied from the prior entry. -/
def entryW : CacheEntry :=
  { department := "Billing", range := "lastWeek", rangeLabel := "Last Week",
    timestampStart := tzStub 2024 4 5 0 0 0, timestampEnd := tzStub 2024 4 11 23 59 59,
    generatedAt := 77, totalRecords := 2,
    apiResponses :=
      [⟨1, some ⟨"u1", "Ann", "c1"⟩, some ⟨"done", some [1, 2, 3]⟩, none⟩,
       ⟨2, some ⟨"u2", "Bob", "c2"⟩, some ⟨"done", some [5, 6, 7]⟩, none⟩] }

/-- Witness for C10 on the concrete merge regeneration of `envW`. -/
theorem entry_mirrors_roster_witness :
    entryW.totalRecords = (envW.usersByInbox 1 "Billing").length ∧
    entryW.apiResponses.length = (envW.usersByInbox 1 "Billing").length ∧
    (∀ (j : Nat) (hj : j < (envW.usersByInbox 1 "Billing").length),
      ∃ rr rec, entryW.apiResponses[j]? = some rr ∧ rr.record = some rec ∧
        rec.id = ((envW.usersByInbox 1 "Billing").get ⟨j, hj⟩).id) :=
  (entry_mirrors_roster envW "Billing" "lastWeek" "K" "EP" 1 (some priorW) entryW).1 rfl

/-- C8. An empty roster produces no cache entry at all: the regenerator
returns `null` (not an empty entry), for the department and for the
individuals path, whatever prior entry it is given; consequently the
orchestrator's range step writes nothing and leaves the store exactly
as it was. -/
theorem empty_roster_yields_nothing (env : OrchEnv)
    (dept rng apiKey endpoint slug : String) (tenantId : Int)
    (spec : RangeSpec) (forceAll : Bool) (st : CacheStore)
    (hr : getDateRange env.now env.toUnix rng = .ok spec)
    (hdept : env.usersByInbox tenantId dept = [])
    (hind : env.individualUsers tenantId = []) :
    (∀ existing, precalculateDepartment env dept rng apiKey endpoint tenantId existing =
      .ok none) ∧
    (∀ existing, precalculateIndividuals env rng apiKey endpoint tenantId existing =
      .ok none) ∧
    processDeptRange env forceAll slug apiKey endpoint tenantId dept rng st = st ∧
    processIndRange env forceAll slug apiKey endpoint tenantId rng st = st := by
  have hd : ∀ existing, precalculateDepartment env dept rng apiKey endpoint tenantId existing =
      .ok none := by
    intro existing
    unfold precalculateDepartment
    rw [hr]
    dsimp only
    rw [hdept]
    simp
  have hi : ∀ existing, precalculateIndividuals env rng apiKey endpoint tenantId existing =
      .ok none := by
    intro existing
    unfold precalculateIndividuals
    rw [hr]
    dsimp only
    rw [hind]
    simp
  refine ⟨hd, hi, ?_, ?_⟩
  · have step : processDeptRange env forceAll slug apiKey endpoint tenantId dept rng st =
        match schedulerDecision env.now env.etDate forceAll rng
            (readFromCache st slug dept rng) with
        | none => st
        | some prior =>
          match precalculateDepartment env dept rng apiKey endpoint tenantId prior with
          | .error _ => st
          | .ok none => st
          | .ok (some d) => saveToCache st slug dept rng d := rfl
    rw [step]
    cases schedulerDecision env.now env.etDate forceAll rng
        (readFromCache st slug dept rng) with
    | none => rfl
    | some prior =>
      dsimp only
      rw [hd prior]
  · have step : processIndRange env forceAll slug apiKey endpoint tenantId rng st =
        match schedulerDecision env.now env.etDate forceAll rng
            (readFromCache st slug "individuals" rng) with
        | none => st
        | some prior =>
          match precalculateIndividuals env rng apiKey endpoint tenantId prior with
          | .error _ => st
          | .ok none => st
          | .ok (some d) => saveToCache st slug "individuals" rng d := rfl
    rw [step]
    cases schedulerDecision env.now env.etDate forceAll rng
        (readFromCache st slug "individuals" rng) with
    | none => rfl
    | some prior =>
      dsimp only
      rw [hi prior]

/-- The witness environment with empty rosters. -/
def envE : OrchEnv :=
  { envW with usersByInbox := fun _ _ => [], individualUsers := fun _ => [] }

/-- Witness for C8: the empty-roster environment produces no entry and
leaves an empty store empty. -/
theorem empty_roster_yields_nothing_witness :
    (∀ existing, precalculateDepartment envE "Billing" "lastWeek" "K" "EP" 1 existing =
      .ok none) ∧
    (∀ existing, precalculateIndividuals envE "lastWeek" "K" "EP" 1 existing =
      .ok none) ∧
    processDeptRange envE false "acme" "K" "EP" 1 "Billing" "lastWeek" [] = [] ∧
    processIndRange envE false "acme" "K" "EP" 1 "lastWeek" [] = [] :=
  empty_roster_yields_nothing envE "Billing" "lastWeek" "K" "EP" "acme" 1 specW
    false [] rfl rfl rfl

/-- C7. Each selective-regeneration item first unconditionally deletes
the pre-existing cache entry for its key, then recomputes in full,
non-merge mode: the regenerator is invoked with no prior entry, so the
item's reported result never depends on what the store held (first
conjunct), and the resulting store is the deletion followed, only on
produced data, by the fresh save.  The per-item status is `success`
when zero records failed, `partial` when some but not all failed (the
all-failed case of the same formula reports `error`), and `error` when
no data was producible: a thrown error, an empty roster (`null` data),
or a missing individuals credential. -/
theorem selective_regeneration (env : OrchEnv) (slug apiKey endpoint : String)
    (apiKeyInd : Option String) (tenantId : Int) (dept rng : String)
    (st : CacheStore) :
    (∀ st' : CacheStore,
      (processRegenItem env slug apiKey endpoint apiKeyInd tenantId dept rng st').1 =
        (processRegenItem env slug apiKey endpoint apiKeyInd tenantId dept rng st).1) ∧
    (dept ≠ "individuals" →
      (∀ d, precalculateDepartment env dept rng apiKey endpoint tenantId none =
          .ok (some d) →
        (processRegenItem env slug apiKey endpoint apiKeyInd tenantId dept rng st).2 =
            saveToCache (deleteCacheFile st (cacheFileName slug dept rng))
              slug dept rng d ∧
        (processRegenItem env slug apiKey endpoint apiKeyInd tenantId dept rng st).1.status =
          (if errorCount d = 0 then "success"
           else if errorCount d < d.totalRecords then "partial" else "error")) ∧
      (precalculateDepartment env dept rng apiKey endpoint tenantId none = .ok none →
        (processRegenItem env slug apiKey endpoint apiKeyInd tenantId dept rng st).2 =
            deleteCacheFile st (cacheFileName slug dept rng) ∧
        (processRegenItem env slug apiKey endpoint apiKeyInd tenantId dept rng st).1.status =
          "error") ∧
      (∀ e, precalculateDepartment env dept rng apiKey endpoint tenantId none = .error e →
        (processRegenItem env slug apiKey endpoint apiKeyInd tenantId dept rng st).2 =
            deleteCacheFile st (cacheFileName slug dept rng) ∧
        (processRegenItem env slug apiKey endpoint apiKeyInd tenantId dept rng st).1.status =
          "error")) ∧
    (dept = "individuals" →
      (jsTruthyStr apiKeyInd = false →
        (processRegenItem env slug apiKey endpoint apiKeyInd tenantId dept rng st).2 =
            deleteCacheFile st (cacheFileName slug dept rng) ∧
        (processRegenItem env slug apiKey endpoint apiKeyInd tenantId dept rng st).1.status =
          "error") ∧
      (jsTruthyStr apiKeyInd = true →
        (∀ d, precalculateIndividuals env rng (apiKeyInd.getD "") endpoint tenantId none =
            .ok (some d) →
          (processRegenItem env slug apiKey endpoint apiKeyInd tenantId dept rng st).2 =
              saveToCache (deleteCacheFile st (cacheFileName slug dept rng))
                slug dept rng d ∧
          (processRegenItem env slug apiKey endpoint apiKeyInd tenantId dept rng st).1.status =
            (if errorCount d = 0 then "success"
             else if errorCount d < d.totalRecords then "partial" else "error")) ∧
        (precalculateIndividuals env rng (apiKeyInd.getD "") endpoint tenantId none =
            .ok none →
          (processRegenItem env slug apiKey endpoint apiKeyInd tenantId dept rng st).2 =
              deleteCacheFile st (cacheFileName slug dept rng) ∧
          (processRegenItem env slug apiKey endpoint apiKeyInd tenantId dept rng st).1.status =
            "error") ∧
        (∀ e, precalculateIndividuals env rng (apiKeyInd.getD "") endpoint tenantId none =
            .error e →
          (processRegenItem env slug apiKey endpoint apiKeyInd tenantId dept rng st).2 =
              deleteCacheFile st (cacheFileName slug dept rng) ∧
          (processRegenItem env slug apiKey endpoint apiKeyInd tenantId dept rng st).1.status =
            "error"))) := by
  refine ⟨?_, ?_, ?_⟩
  · intro st'
    unfold processRegenItem
    by_cases hd : (dept == "individuals") = true
    · rw [if_pos hd, if_pos hd]
      by_cases hk : jsTruthyStr apiKeyInd = true
      · rw [if_pos hk, if_pos hk]
        cases precalculateIndividuals env rng (apiKeyInd.getD "") endpoint tenantId none with
        | error e => rfl
        | ok o => cases o <;> rfl
      · rw [if_neg hk, if_neg hk]
    · rw [if_neg hd, if_neg hd]
      cases precalculateDepartment env dept rng apiKey endpoint tenantId none with
      | error e => rfl
      | ok o => cases o <;> rfl
  · intro hne
    have hd : (dept == "individuals") = false := beq_eq_false_iff_ne.mpr hne
    refine ⟨?_, ?_, ?_⟩
    · intro d hpc
      unfold processRegenItem
      rw [if_neg (by simp [hd]), hpc]
      exact ⟨rfl, rfl⟩
    · intro hpc
      unfold processRegenItem
      rw [if_neg (by simp [hd]), hpc]
      exact ⟨rfl, rfl⟩
    · intro e hpc
      unfold processRegenItem
      rw [if_neg (by simp [hd]), hpc]
      exact ⟨rfl, rfl⟩
  · intro heq
    subst heq
    constructor
    · intro hk
      unfold processRegenItem
      rw [if_pos (by decide), if_neg (by simp [hk])]
      exact ⟨rfl, rfl⟩
    · intro hk
      refine ⟨?_, ?_, ?_⟩
      · intro d hpc
        unfold processRegenItem
        rw [if_pos (by decide), if_pos hk, hpc]
        exact ⟨rfl, rfl⟩
      · intro hpc
        unfold processRegenItem
        rw [if_pos (by decide), if_pos hk, hpc]
        exact ⟨rfl, rfl⟩
      · intro e hpc
        unfold processRegenItem
        rw [if_pos (by decide), if_pos hk, hpc]
        exact ⟨rfl, rfl⟩

/-- The full (non-merge) recomputation `envW` produces for Billing. -/
def entryFullW : CacheEntry :=
  { department := "Billing", range := "lastWeek", rangeLabel := "Last Week",
    timestampStart := tzStub 2024 4 5 0 0 0, timestampEnd := tzStub 2024 4 11 23 59 59,
    generatedAt := 77, totalRecords := 2,
    apiResponses :=
      [⟨1, some ⟨"u1", "Ann", "c1"⟩, some ⟨"done", some [1, 2, 3]⟩, none⟩,
       ⟨2, some ⟨"u2", "Bob", "c2"⟩, some ⟨"done", some [1, 2, 3]⟩, none⟩] }

/-- A store already holding an entry under the item's key. -/
def stW : CacheStore := [(cacheFileName "acme" "Billing" "lastWeek", priorW)]

/-- Witness for C7: on a store holding a prior partial entry, the item
step deletes it, recomputes from scratch and reports `success`. -/
theorem selective_regeneration_witness :
    (processRegenItem envW "acme" "K" "EP" (some "KI") 1 "Billing" "lastWeek" stW).2 =
        saveToCache (deleteCacheFile stW (cacheFileName "acme" "Billing" "lastWeek"))
          "acme" "Billing" "lastWeek" entryFullW ∧
    (processRegenItem envW "acme" "K" "EP" (some "KI") 1 "Billing" "lastWeek" stW).1.status =
      (if errorCount entryFullW = 0 then "success"
       else if errorCount entryFullW < entryFullW.totalRecords then "partial"
       else "error") :=
  ((selective_regeneration envW "acme" "K" "EP" (some "KI") 1 "Billing" "lastWeek"
      stW).2.1 (by decide)).1 entryFullW rfl
